import Mathlib

/-!
SSAGES core: a shallow embedding of `src/Grids/Grid.h`, of the walker topology
queries of `src/EventListener.h` and of the species lookup of
`hooks/qbox/QboxHook.h`.

The C++ types are embedded as follows.

* `int` is a 32-bit two's complement integer: the result of `*` and `+` on
  `int`s is reduced into `[-2^31, 2^31)` by `wrapInt`. The C++ standard leaves
  signed overflow undefined; the compiled program wraps.
* `double` is IEEE 754 binary64. A finite double is the rational number it
  denotes, a result that is not finite (an infinity or a NaN) is `none`, and
  every arithmetic operation rounds its exact result to the nearest double,
  ties to even (`fl`). The values handed to the program are doubles; a rational
  that is not a double is rounded by the first operation applied to it.
* The conversion `int(x)` of a double truncates toward zero when the result
  fits in an `int` and gives `INT_MIN` otherwise (`castInt`), as the conversion
  instruction of x86-64 does; the C++ standard leaves that case undefined.
  Likewise an integer division by zero, which traps, is a fault.
* `std::vector<T>` is `List T`. An unchecked `operator[]` outside the vector is
  undefined behaviour in C++; the embedding reports it as
  `Fault.undefined_access` instead of inventing a value.
* `throw std::out_of_range(what)` is `Fault.out_of_range what`.
* A member function that mutates the grid returns its outcome together with the
  grid as it stands afterwards, so that the state after a `throw` is visible.
* A communicator is the pair of the `int` rank and `int` size that the
  message-passing layer reports for it; `unsigned int` results are reduced
  modulo `2 ^ 32`.
-/

namespace SSAGES

/-! ## Faults -/

/-- The ways a call can fail to return normally: a thrown `std::out_of_range`
carrying its message, or an access outside a vector. -/
inductive Fault where
  | out_of_range (what : String)
  | undefined_access
  deriving DecidableEq, Repr

/-- The message thrown by `FlattenIndices` (Grid.h line 29). -/
def rangeError : Fault := Fault.out_of_range "Grid indices out of range"

/-- The message thrown by `Grid::SetExtra` (Grid.h line 157). -/
def sizeMismatchError : Fault :=
  Fault.out_of_range "Vector field in grid is not the same size as value"

/-- The read `xs[i]` of a `std::vector` at a `size_t` position. -/
def elemAt {α : Type} (xs : List α) (i : Nat) : Except Fault α :=
  match xs[i]? with
  | some x => pure x
  | none => throw Fault.undefined_access

/-- The read `xs[i]` of a `std::vector` at an `int` position; a negative `int`
converts to a `size_t` beyond every vector. -/
def elemAtInt {α : Type} (xs : List α) (i : Int) : Except Fault α :=
  if i < 0 then throw Fault.undefined_access else elemAt xs i.toNat

/-- The write `xs[i] = x` of a `std::vector` at a `size_t` position. -/
def setAt {α : Type} (xs : List α) (i : Nat) (x : α) : Except Fault (List α) :=
  if i < xs.length then pure (xs.set i x) else throw Fault.undefined_access

/-! ## Machine integers -/

/-- The smallest `int`. -/
def INT_MIN : Int := -2147483648

/-- The largest `int`. -/
def INT_MAX : Int := 2147483647

/-- The `int` that an arithmetic result is stored as: the representative of
`x` modulo `2^32` in `[-2^31, 2^31)`. -/
def wrapInt (x : Int) : Int := (x + 2147483648) % 4294967296 - 2147483648

/-! ## FlattenIndices (Grid.h lines 22-38) -/

/-- The inner loop `for (j = i+1; j < indices.size(); j++) locj *= num_points[j]`,
entered at position `j` with `r` iterations left. -/
def FlattenIndices.inner (num_points : List Int) : Nat → Nat → Int → Except Fault Int
  | _, 0, locj => pure locj
  | j, r + 1, locj => do
      let nj ← elemAt num_points j
      FlattenIndices.inner num_points (j + 1) r (wrapInt (locj * nj))

/-- The outer loop `for (i = 0; i < indices.size(); i++)`, entered at position
`i` with `r` iterations left and the running sum `loci`. -/
def FlattenIndices.outer (indices num_points : List Int) :
    Nat → Nat → Int → Except Fault Int
  | _, 0, loci => pure loci
  | i, r + 1, loci => do
      let ci ← elemAt indices i
      let ni ← elemAt num_points i
      if ci ≥ ni then
        throw rangeError
      let locj ← FlattenIndices.inner num_points (i + 1) (indices.length - (i + 1)) ci
      FlattenIndices.outer indices num_points (i + 1) r (wrapInt (loci + locj))

/-- `FlattenIndices(indices, num_points)`: the position in the flat array. -/
def FlattenIndices (indices num_points : List Int) : Except Fault Int :=
  FlattenIndices.outer indices num_points 0 indices.length 0

/-- A coordinate tuple is valid for a point-count vector when both have the same
length and `0 ≤ coordinate[i] < point_count[i]` on every axis. -/
def ValidIndices (coordinate point_count : List Int) : Prop :=
  List.Forall₂ (fun c n => 0 ≤ c ∧ c < n) coordinate point_count

/-- The row-major offset in the words of the specification: the sum over axes `i`
of `coordinate[i]` times the product of `point_count[j]` over the axes `j > i`. -/
def rowMajorOffset (coordinate point_count : List Int) : Int :=
  ∑ i in Finset.range coordinate.length,
    coordinate.getD i 0 * ∏ j in Finset.Ico (i + 1) coordinate.length, point_count.getD j 1

/-- The inverse of flattening in the words of the specification: the mixed-radix
decomposition of an offset by the point counts, most significant axis first. -/
def unflattenIndices : List Int → Int → List Int
  | [], _ => []
  | _ :: ns, offset => offset / ns.prod :: unflattenIndices ns (offset % ns.prod)

/-! ## The grid (Grid.h lines 44-160) -/

/-- The data members of `class Grid`. A node of `_flatvector` is the pair of
its payload (primary value first, then the extra fields) and its location. -/
structure Grid where
  _lower : List ℚ
  _upper : List ℚ
  _periodic : List Bool
  _num_points : List Int
  _spacing : List ℚ
  _NDim : Int
  _flatvector : List (List ℚ × List ℚ)

/-! ### Doubles -/

/-- Rounding of a rational to the nearest integer, ties to the even one. -/
def roundHalfEven (q : ℚ) : Int :=
  if q - ⌊q⌋ < 1 / 2 then ⌊q⌋
  else if 1 / 2 < q - ⌊q⌋ then ⌊q⌋ + 1
  else if ⌊q⌋ % 2 = 0 then ⌊q⌋
  else ⌊q⌋ + 1

/-- The exponent of the unit in the last place of the doubles around `x`: a
53-bit significand, and exponent -1022 for the subnormal numbers. -/
def ulpExponent (x : ℚ) : Int := max (Int.log 2 |x|) (-1022) - 52

/-- The nearest multiple of the unit in the last place, ties to even. -/
def roundDouble (x : ℚ) : ℚ := roundHalfEven (x / 2 ^ ulpExponent x) * 2 ^ ulpExponent x

/-- The double that an operation with exact result `x` delivers: the nearest
double, or an infinity (`none`) when that exceeds the largest double. -/
def fl (x : ℚ) : Option ℚ :=
  if |roundDouble x| < 2 ^ (1024 : Nat) then some (roundDouble x) else none

/-- The double `a - b`. -/
def dsub (a b : Option ℚ) : Option ℚ :=
  a.bind fun x => b.bind fun y => fl (x - y)

/-- The double `a + b`. -/
def dadd (a b : Option ℚ) : Option ℚ :=
  a.bind fun x => b.bind fun y => fl (x + y)

/-- The double `a / b`; a quotient by zero is an infinity or a NaN. -/
def ddiv (a b : Option ℚ) : Option ℚ :=
  a.bind fun x => b.bind fun y => if y = 0 then none else fl (x / y)

/-- Truncation of a rational toward zero. -/
def truncate (x : ℚ) : Int := if 0 ≤ x then ⌊x⌋ else ⌈x⌉

/-- The conversion `int(x)` of a `double`: truncation toward zero when that is
an `int`, and `INT_MIN` for every other double, infinities and NaN included. -/
def castInt (x : Option ℚ) : Int :=
  match x with
  | none => INT_MIN
  | some x => if INT_MIN ≤ truncate x ∧ truncate x ≤ INT_MAX then truncate x else INT_MIN

/-- The body of the loop of `Grid::GetIndices` for one axis (lines 82-98): the
rounded raw vertex, the periodic wrap and the clamp. A zero spacing makes the
quotient infinite or NaN, which converts to `INT_MIN`. A zero point count makes
`%` divide by zero and `INT_MIN % -1` overflows; the integer division
instruction traps on both. The sum `vertex + num_points` and the difference
`num_points - 1` are `int` operations. -/
def GetIndices.vertex (v lower spacing : ℚ) (periodic : Bool) (num_points : Int) :
    Except Fault Int := do
  let vertex : Int :=
    if v < lower then
      castInt (dsub (ddiv (dsub (some v) (some lower)) (some spacing)) (some (1 / 2)))
    else
      castInt (dadd (ddiv (dsub (some v) (some lower)) (some spacing)) (some (1 / 2)))
  let vertex : Int ←
    if periodic then
      if num_points = 0 ∨ (vertex = INT_MIN ∧ num_points = -1) then
        throw Fault.undefined_access
      else
        let vertex := vertex.tmod num_points
        pure (if vertex < 0 then wrapInt (vertex + num_points) else vertex)
    else
      pure vertex
  let vertex : Int :=
    if vertex < 0 then 0
    else if vertex ≥ num_points then wrapInt (num_points - 1)
    else vertex
  pure vertex

/-- The loop `for (i = 0; i < val.size(); i++)` of `Grid::GetIndices`, entered
at position `i` with `r` iterations left and the vertices pushed so far. -/
def GetIndices.loop (g : Grid) (val : List ℚ) : Nat → Nat → List Int → Except Fault (List Int)
  | _, 0, vertices => pure vertices
  | i, r + 1, vertices => do
      let v ← elemAt val i
      let lower ← elemAt g._lower i
      let spacing ← elemAt g._spacing i
      let periodic ← elemAt g._periodic i
      let num_points ← elemAt g._num_points i
      let vertex ← GetIndices.vertex v lower spacing periodic num_points
      GetIndices.loop g val (i + 1) r (vertices ++ [vertex])

/-- `Grid::GetIndices(val)`: the nearest grid indices of an N-dimensional value. -/
def GetIndices (g : Grid) (val : List ℚ) : Except Fault (List Int) :=
  GetIndices.loop g val 0 val.length []

/-- `Grid::GetLocation(indices)`. -/
def GetLocation (g : Grid) (indices : List Int) : Except Fault (List ℚ) := do
  let flatten ← FlattenIndices indices g._num_points
  let node ← elemAtInt g._flatvector flatten
  pure node.2

/-- `Grid::GetValue(indices)`. -/
def GetValue (g : Grid) (indices : List Int) : Except Fault ℚ := do
  let flatten ← FlattenIndices indices g._num_points
  let node ← elemAtInt g._flatvector flatten
  elemAt node.1 0

/-- `Grid::SetValue(indices, value)`: the outcome and the grid afterwards. -/
def SetValue (g : Grid) (indices : List Int) (value : ℚ) : Except Fault Unit × Grid :=
  match FlattenIndices indices g._num_points with
  | .error e => (.error e, g)
  | .ok flatten =>
    match elemAtInt g._flatvector flatten with
    | .error e => (.error e, g)
    | .ok node =>
      match setAt node.1 0 value with
      | .error e => (.error e, g)
      | .ok first =>
        (.ok (), { g with _flatvector := g._flatvector.set flatten.toNat (first, node.2) })

/-- `Grid::GetExtra(indices)`: the payload from position 1 to its end. The range
`&temp[1] .. &temp[temp.size()]` is not a valid range of an empty payload. -/
def GetExtra (g : Grid) (indices : List Int) : Except Fault (List ℚ) := do
  let flatten ← FlattenIndices indices g._num_points
  let node ← elemAtInt g._flatvector flatten
  if node.1.length = 0 then
    throw Fault.undefined_access
  pure (node.1.drop 1)

/-- The loop `for (i = 0; i < value.size(); i++) first[i+1] = value[i]` of
`Grid::SetExtra`, entered at position `i` with `r` iterations left. -/
def SetExtra.loop (value : List ℚ) : Nat → Nat → List ℚ → Except Fault (List ℚ)
  | _, 0, first => pure first
  | i, r + 1, first => do
      let x ← elemAt value i
      let first ← setAt first (i + 1) x
      SetExtra.loop value (i + 1) r first

/-- `Grid::SetExtra(indices, value)`: the outcome and the grid afterwards. The
test `value.size() != first.size() - 1` is computed in `size_t`: for an empty
payload the right side wraps to the largest `size_t`, which no vector size
equals, so the test holds. -/
def SetExtra (g : Grid) (indices : List Int) (value : List ℚ) : Except Fault Unit × Grid :=
  match FlattenIndices indices g._num_points with
  | .error e => (.error e, g)
  | .ok flatten =>
    match elemAtInt g._flatvector flatten with
    | .error e => (.error e, g)
    | .ok node =>
      if node.1.length = 0 ∨ value.length ≠ node.1.length - 1 then
        (.error sizeMismatchError, g)
      else
        match SetExtra.loop value 0 value.length node.1 with
        | .error e => (.error e, g)
        | .ok first =>
          (.ok (), { g with _flatvector := g._flatvector.set flatten.toNat (first, node.2) })

/-- The storage invariant of the specification: the flat storage has one node
per grid point, the number of grid points being an `int` (the flat position
that `FlattenIndices` returns is an `int`), and every node carries the primary
value and `extra` auxiliary fields. -/
def StorageInv (g : Grid) (extra : Nat) : Prop :=
  (g._flatvector.length : Int) = g._num_points.prod ∧ g._num_points.prod ≤ INT_MAX ∧
    ∀ node ∈ g._flatvector, node.1.length = extra + 1

/-! ## Walker topology (EventListener.h lines 83-99) -/

/-- What `mxx::comm(c)` reports for a communicator `c`: `rank()` and `size()`,
both of type `int`. -/
structure Comm where
  rank : Int
  size : Int

/-- The rank and size of an actual communicator: `0 ≤ rank < size`, and the size
is an `int`. -/
def Comm.Valid (c : Comm) : Prop := 0 ≤ c.rank ∧ c.rank < c.size ∧ c.size < 2 ^ 31

/-- The conversion of an `int` to the `unsigned int` that is returned. -/
def toUnsigned (x : Int) : Int := x % 2 ^ 32

/-- `EventListener::GetWalkerID(world, comm)`: the `int` quotient
`rank() / size()`, which truncates; division by zero is undefined. -/
def EventListener.GetWalkerID (world comm : Comm) : Except Fault Int :=
  if comm.size = 0 then throw Fault.undefined_access
  else pure (toUnsigned (world.rank.tdiv comm.size))

/-- `EventListener::GetNumWalkers(world, comm)`: the `int` quotient
`size() / size()`, which truncates; division by zero is undefined. -/
def EventListener.GetNumWalkers (world comm : Comm) : Except Fault Int :=
  if comm.size = 0 then throw Fault.undefined_access
  else pure (toUnsigned (world.size.tdiv comm.size))

/-- `EventListener::IsMasterRank(comm)`. -/
def EventListener.IsMasterRank (comm : Comm) : Bool := comm.rank == 0

/-! ## Species lookup (QboxHook.h lines 26-34) -/

/-- `std::find(xs.begin(), xs.end(), x) - xs.begin()`: the position of the first
element equal to `x`, or the length of `xs` when the iterator returned is
`xs.end()`. -/
def std_find (xs : List String) (x : String) : Nat :=
  match xs with
  | [] => 0
  | y :: ys => if y = x then 0 else std_find ys x + 1

/-- `QboxHook::GetSpeciesIndex(species)` over the member `species_`. -/
def QboxHook.GetSpeciesIndex (species_ : List String) (species : String) : Int :=
  let it := std_find species_ species
  if it = species_.length then -1 else (it : Int)

/-! ## Auxiliary definitions for the proofs -/

/-- The double that lines 83-86 pass to `int(...)`: the quotient
`(v - lower) / spacing` minus one half below the lower bound, plus one half at
or above it, every operation rounded. -/
def rawDouble (v lower spacing : ℚ) : Option ℚ :=
  if v < lower then dsub (ddiv (dsub (some v) (some lower)) (some spacing)) (some (1 / 2))
  else dadd (ddiv (dsub (some v) (some lower)) (some spacing)) (some (1 / 2))

/-- The rounded raw vertex of lines 83-86, as a function of the value. -/
def rawVertex (v lower spacing : ℚ) : Int := castInt (rawDouble v lower spacing)

/-- The number that `rawDouble` approximates: `(v - lower) / spacing` minus one
half below the lower bound, plus one half at or above it, without rounding. -/
def exactRaw (v lower spacing : ℚ) : ℚ :=
  if v < lower then (v - lower) / spacing - 1 / 2 else (v - lower) / spacing + 1 / 2

/-- The computation of lines 83-86 is exact for `v`: no operation rounds, and
the result is below `2^31` in magnitude, so that it converts to an `int`. -/
def ExactRaw (v lower spacing : ℚ) : Prop :=
  rawDouble v lower spacing = some (exactRaw v lower spacing) ∧
    |exactRaw v lower spacing| < 2147483648

/-- A finite double: a significand of at most 53 bits times a power of two
between `2^-1074` and `2^971`. -/
def IsDouble (a : ℚ) : Prop :=
  ∃ m j : Int, |m| < 2 ^ 53 ∧ -1074 ≤ j ∧ j ≤ 971 ∧ a = m * 2 ^ j

/-- The periodic wrap of lines 90-92, as a function of the raw vertex. -/
def wrapVertex (vertex num_points : Int) : Int :=
  if vertex.tmod num_points < 0 then vertex.tmod num_points + num_points
  else vertex.tmod num_points

/-- The 1-axis periodic grid of the specification's scenario: bounds `[0, 10]`,
10 points, spacing 1. -/
def periodicScenario : Grid :=
  { _lower := [0], _upper := [10], _periodic := [true], _num_points := [10],
    _spacing := [1], _NDim := 1, _flatvector := [] }

/-- The 2-axis non-periodic grid of the specification's scenario: bounds
`[0, 1] × [0, 1]`, 3 points per axis, spacing 1/2. -/
def clampScenario : Grid :=
  { _lower := [0, 0], _upper := [1, 1], _periodic := [false, false], _num_points := [3, 3],
    _spacing := [1 / 2, 1 / 2], _NDim := 2, _flatvector := [] }

/-- A 1-axis periodic grid whose bounds are reversed: lower bound 0, upper
bound -10, 10 points, spacing `(-10 - 0) / 10`. -/
def reversedScenario : Grid :=
  { _lower := [0], _upper := [-10], _periodic := [true], _num_points := [10],
    _spacing := [-1], _NDim := 1, _flatvector := [] }

/-- A 1-axis non-periodic grid with nodes at 0 and 1: bounds `[0, 1]`, 2 points,
spacing 1. -/
def unitScenario : Grid :=
  { _lower := [0], _upper := [1], _periodic := [false], _num_points := [2], _spacing := [1],
    _NDim := 1, _flatvector := [] }

/-- A stored 1-axis grid with 2 points and one extra field per node. -/
def storedScenario : Grid :=
  { _lower := [0], _upper := [1], _periodic := [false], _num_points := [2], _spacing := [1],
    _NDim := 1, _flatvector := [([0, 7], [0]), ([3, 8], [1])] }

/-- A 3-axis grid whose number of grid points, `2 * 65536 * 65536`, is not an
`int`, with a single stored node; it breaks the storage invariant. -/
def overflowScenario : Grid :=
  { _lower := [0, 0, 0], _upper := [1, 1, 1], _periodic := [false, false, false],
    _num_points := [2, 65536, 65536], _spacing := [1, 1 / 65535, 1 / 65535], _NDim := 3,
    _flatvector := [([0], [0, 0, 0])] }

/-! ## Machine integers -/

theorem wrapInt_of_int (x : Int) (h0 : INT_MIN ≤ x) (h1 : x ≤ INT_MAX) : wrapInt x = x := by
  unfold INT_MIN at h0
  unfold INT_MAX at h1
  unfold wrapInt
  omega

theorem wrapInt_range (x : Int) : INT_MIN ≤ wrapInt x ∧ wrapInt x ≤ INT_MAX := by
  unfold INT_MIN INT_MAX wrapInt
  omega

/-! ## Flattening: the loops in closed form -/

theorem elemAt_cons_succ {α : Type} (x : α) (xs : List α) (i : Nat) :
    elemAt (x :: xs) (i + 1) = elemAt xs i := by
  simp [elemAt]

theorem elemAt_cons_zero {α : Type} (x : α) (xs : List α) :
    elemAt (x :: xs) 0 = Except.ok x := by
  simp [elemAt, pure, Except.pure]

theorem elemAt_of_getElem? {α : Type} {xs : List α} {i : Nat} {x : α}
    (h : xs[i]? = some x) : elemAt xs i = Except.ok x := by
  simp [elemAt, h, pure, Except.pure]

theorem elemAt_of_lt {α : Type} {xs : List α} {i : Nat} (h : i < xs.length) :
    ∃ x, xs[i]? = some x ∧ elemAt xs i = Except.ok x :=
  ⟨xs[i], List.getElem?_eq_getElem h, elemAt_of_getElem? (List.getElem?_eq_getElem h)⟩

theorem FlattenIndices.inner_shift (n : Int) (ns : List Int) :
    ∀ (r j : Nat) (x : Int),
      FlattenIndices.inner (n :: ns) (j + 1) r x = FlattenIndices.inner ns j r x := by
  intro r
  induction r with
  | zero => intro j x; rfl
  | succ r ih =>
    intro j x
    simp only [FlattenIndices.inner, elemAt_cons_succ]
    cases elemAt ns j with
    | error e => rfl
    | ok nj => exact ih (j + 1) (wrapInt (x * nj))

theorem prod_pos_of_one_le (ns : List Int) (h : ∀ n ∈ ns, 1 ≤ n) : 1 ≤ ns.prod := by
  induction ns with
  | nil => simp
  | cons n ns ih =>
    rw [List.prod_cons]
    have h1 : 1 ≤ n := h n (List.mem_cons_self n ns)
    have h2 : 1 ≤ ns.prod := ih (fun m hm => h m (List.mem_cons_of_mem n hm))
    nlinarith

theorem FlattenIndices.inner_ok :
    ∀ (ns : List Int) (r : Nat) (x : Int), r ≤ ns.length → 0 ≤ x →
      (∀ n ∈ ns, 1 ≤ n) → x * ns.prod ≤ INT_MAX →
      FlattenIndices.inner ns 0 r x = Except.ok (x * (ns.take r).prod) := by
  intro ns
  induction ns with
  | nil =>
    intro r x h _ _ _
    have hr : r = 0 := by simpa using h
    subst hr
    simp [FlattenIndices.inner, pure, Except.pure]
  | cons n ns ih =>
    intro r x h hx hpos hmax
    cases r with
    | zero => simp [FlattenIndices.inner, pure, Except.pure]
    | succ r =>
      have hr : r ≤ ns.length := by simpa using h
      have hn : 1 ≤ n := hpos n (List.mem_cons_self n ns)
      have hns : ∀ m ∈ ns, 1 ≤ m := fun m hm => hpos m (List.mem_cons_of_mem n hm)
      have hP : 1 ≤ ns.prod := prod_pos_of_one_le ns hns
      have hxn : 0 ≤ x * n := mul_nonneg hx (by omega)
      have hmax1 : x * n * ns.prod ≤ INT_MAX := by
        rw [List.prod_cons, ← mul_assoc] at hmax
        exact hmax
      have hxn1 : x * n ≤ INT_MAX := by
        have : x * n * 1 ≤ x * n * ns.prod := mul_le_mul_of_nonneg_left hP hxn
        omega
      have hw : wrapInt (x * n) = x * n :=
        wrapInt_of_int _ (by unfold INT_MIN; omega) hxn1
      simp only [FlattenIndices.inner, elemAt_cons_zero]
      show FlattenIndices.inner (n :: ns) (0 + 1) r (wrapInt (x * n)) = _
      rw [FlattenIndices.inner_shift, hw, ih r (x * n) hr hxn hns hmax1]
      simp [mul_assoc]

theorem FlattenIndices.outer_shift (c : Int) (cs : List Int) (n : Int) (ns : List Int) :
    ∀ (r i : Nat) (a : Int),
      FlattenIndices.outer (c :: cs) (n :: ns) (i + 1) r a
        = FlattenIndices.outer cs ns i r a := by
  intro r
  induction r with
  | zero => intro i a; rfl
  | succ r ih =>
    intro i a
    simp only [FlattenIndices.outer, elemAt_cons_succ, List.length_cons,
      Nat.add_sub_add_right, FlattenIndices.inner_shift]
    cases elemAt cs i with
    | error e => rfl
    | ok ci =>
      cases elemAt ns i with
      | error e => rfl
      | ok ni =>
        by_cases hc : ci ≥ ni
        · simp [hc, bind, Except.bind]
        · simp only [hc, bind, Except.bind, if_false]
          cases FlattenIndices.inner ns (i + 1) (cs.length - (i + 1)) ci with
          | error e => rfl
          | ok locj => exact ih (i + 1) (wrapInt (a + locj))

theorem prod_getD_range (ns : List Int) :
    ∏ j in Finset.range ns.length, ns.getD j 1 = ns.prod := by
  induction ns with
  | nil => simp
  | cons n ns ih =>
    rw [List.length_cons, Finset.prod_range_succ']
    simp only [List.getD_cons_succ, List.getD_cons_zero, ih, mul_comm, List.prod_cons]

theorem rowMajorOffset_cons (c : Int) (cs : List Int) (n : Int) (ns : List Int)
    (h : cs.length = ns.length) :
    rowMajorOffset (c :: cs) (n :: ns) = c * ns.prod + rowMajorOffset cs ns := by
  unfold rowMajorOffset
  rw [List.length_cons, Finset.sum_range_succ', add_comm]
  congr 1
  · have h1 : ∏ j in Finset.Ico (0 + 1) (cs.length + 1), (n :: ns).getD j 1 = ns.prod := by
      rw [← Finset.prod_Ico_add' (fun j => (n :: ns).getD j 1) 0 cs.length 1, h,
        ← prod_getD_range ns, Finset.range_eq_Ico]
      simp only [List.getD_cons_succ]
    simp only [List.getD_cons_zero, h1]
  · apply Finset.sum_congr rfl
    intro i _
    rw [← Finset.prod_Ico_add' (fun j => (n :: ns).getD j 1) (i + 1) cs.length 1]
    simp only [List.getD_cons_succ]

theorem ValidIndices.one_le (cs ns : List Int) (h : ValidIndices cs ns) :
    ∀ n ∈ ns, 1 ≤ n := by
  induction h with
  | nil => intro n hn; simp at hn
  | @cons c n cs ns hcn _ ih =>
    intro m hm
    rcases List.mem_cons.mp hm with e | e
    · subst e
      omega
    · exact ih m e

theorem rowMajorOffset_bounds (cs ns : List Int) (h : ValidIndices cs ns) :
    0 ≤ rowMajorOffset cs ns ∧ rowMajorOffset cs ns < ns.prod := by
  induction h with
  | nil => simp [rowMajorOffset]
  | @cons c n cs ns hcn hrest ih =>
    rw [rowMajorOffset_cons c cs n ns hrest.length_eq, List.prod_cons]
    obtain ⟨h0, h1⟩ := ih
    obtain ⟨hc0, hc1⟩ := hcn
    have hP : 0 < ns.prod := lt_of_le_of_lt h0 h1
    constructor
    · exact add_nonneg (mul_nonneg hc0 hP.le) h0
    · have h2 : (c + 1) * ns.prod ≤ n * ns.prod :=
        mul_le_mul_of_nonneg_right (by omega) hP.le
      have h3 : c * ns.prod + rowMajorOffset cs ns < (c + 1) * ns.prod := by
        rw [add_mul, one_mul]
        exact add_lt_add_left h1 _
      exact lt_of_lt_of_le h3 h2

theorem FlattenIndices.outer_valid (cs ns : List Int) (h : ValidIndices cs ns) :
    ∀ a : Int, 0 ≤ a → a + ns.prod ≤ INT_MAX + 1 →
      FlattenIndices.outer cs ns 0 cs.length a = Except.ok (a + rowMajorOffset cs ns) := by
  induction h with
  | nil => intro a _ _; simp [FlattenIndices.outer, rowMajorOffset, pure, Except.pure]
  | @cons c n cs ns hcn hrest ih =>
    intro a ha hmax
    have hlen : cs.length = ns.length := hrest.length_eq
    have hc : ¬ c ≥ n := not_le.mpr hcn.2
    have hns : ∀ m ∈ ns, 1 ≤ m := ValidIndices.one_le cs ns hrest
    have hP : 1 ≤ ns.prod := prod_pos_of_one_le ns hns
    rw [List.prod_cons] at hmax
    have hcP : c * ns.prod + ns.prod ≤ n * ns.prod := by
      have : (c + 1) * ns.prod ≤ n * ns.prod :=
        mul_le_mul_of_nonneg_right (by omega) (by omega)
      rw [add_mul, one_mul] at this
      exact this
    have hcP0 : 0 ≤ c * ns.prod := mul_nonneg hcn.1 (by omega)
    have hw : wrapInt (a + c * ns.prod) = a + c * ns.prod :=
      wrapInt_of_int _ (by unfold INT_MIN; omega) (by omega)
    simp only [List.length_cons, FlattenIndices.outer, elemAt_cons_zero]
    simp only [bind, Except.bind, pure, Except.pure, hc, if_false]
    rw [FlattenIndices.inner_shift, Nat.add_sub_cancel,
      FlattenIndices.inner_ok ns cs.length c (le_of_eq hlen) hcn.1 hns (by omega)]
    simp only []
    have htake : (List.take cs.length ns).prod = ns.prod := by rw [hlen, List.take_length]
    rw [FlattenIndices.outer_shift, htake, hw,
      ih (a + c * ns.prod) (by omega) (by omega), rowMajorOffset_cons c cs n ns hlen, add_assoc]

theorem FlattenIndices_eq_offset (cs ns : List Int) (h : ValidIndices cs ns)
    (hprod : ns.prod ≤ INT_MAX) :
    FlattenIndices cs ns = Except.ok (rowMajorOffset cs ns) := by
  unfold FlattenIndices
  rw [FlattenIndices.outer_valid cs ns h 0 le_rfl (by omega), zero_add]

/-! ### Claims about FlattenIndices -/

/-- C1, as the code has it. For point counts whose product is an `int` (at most
`INT_MAX`) and a valid coordinate tuple, `FlattenIndices` returns the row-major
offset: the sum over axes `i` of `coordinate[i]` times the product of the point
counts of the axes after `i`. -/
theorem FlattenIndices_eq_rowMajorOffset (coordinate point_count : List Int)
    (h : ValidIndices coordinate point_count) (hprod : point_count.prod ≤ INT_MAX) :
    FlattenIndices coordinate point_count
      = Except.ok (rowMajorOffset coordinate point_count) := by
  unfold FlattenIndices
  rw [FlattenIndices.outer_valid coordinate point_count h 0 le_rfl (by omega), zero_add]

theorem FlattenIndices_eq_rowMajorOffset_witness :
    ValidIndices [1, 2, 3] [2, 5, 7] ∧ ([2, 5, 7] : List Int).prod ≤ INT_MAX ∧
      FlattenIndices [1, 2, 3] [2, 5, 7] = Except.ok (rowMajorOffset [1, 2, 3] [2, 5, 7]) :=
  ⟨by simp [ValidIndices], by decide,
    FlattenIndices_eq_rowMajorOffset [1, 2, 3] [2, 5, 7] (by simp [ValidIndices]) (by decide)⟩

/-- C1, as stated, fails when the product of the point counts is not an `int`:
over the point counts `[2, 65536, 65536]` the valid tuple `[1, 65535, 65535]`
flattens to `-1`, while its row-major offset is `8589934591`. -/
theorem FlattenIndices_overflow :
    ValidIndices [1, 65535, 65535] [2, 65536, 65536] ∧
      FlattenIndices [1, 65535, 65535] [2, 65536, 65536] = Except.ok (-1) ∧
      rowMajorOffset [1, 65535, 65535] [2, 65536, 65536] = 8589934591 := by
  refine ⟨by simp [ValidIndices], rfl, ?_⟩
  rw [rowMajorOffset_cons 1 [65535, 65535] 2 [65536, 65536] rfl,
    rowMajorOffset_cons 65535 [65535] 65536 [65536] rfl,
    rowMajorOffset_cons 65535 [] 65536 [] rfl]
  rfl

/-- C2. A tuple with a negative coordinate is not rejected: `FlattenIndices`
tests only `indices[i] >= num_points[i]`, so the invalid tuple `[1, -1]` over
the point counts `[2, 5]` is mapped to offset `4`, the offset of `[0, 4]`. -/
theorem FlattenIndices_negative_not_rejected :
    ¬ ValidIndices [1, -1] [2, 5] ∧
      FlattenIndices [1, -1] [2, 5] = Except.ok 4 ∧
      FlattenIndices [0, 4] [2, 5] = Except.ok 4 := by
  refine ⟨by simp [ValidIndices], rfl, rfl⟩

/-! ## Storage: offsets are in bounds -/

theorem node_lookup (g : Grid) (extra : Nat) (indices : List Int)
    (hinv : StorageInv g extra) (hvalid : ValidIndices indices g._num_points) :
    ∃ (flatten : Int) (node : List ℚ × List ℚ),
      FlattenIndices indices g._num_points = Except.ok flatten ∧
      flatten.toNat < g._flatvector.length ∧
      elemAtInt g._flatvector flatten = Except.ok node ∧
      node.1.length = extra + 1 := by
  obtain ⟨h0, h1⟩ := rowMajorOffset_bounds indices g._num_points hvalid
  have hlt : (rowMajorOffset indices g._num_points).toNat < g._flatvector.length := by
    have := hinv.1
    omega
  obtain ⟨node, hnode, hnode'⟩ := elemAt_of_lt hlt
  refine ⟨_, node, FlattenIndices_eq_offset indices g._num_points hvalid hinv.2.1, hlt, ?_,
    hinv.2.2 node (List.getElem?_mem hnode)⟩
  unfold elemAtInt
  rw [if_neg (by omega)]
  exact hnode'

theorem SetExtra.loop_ok (value : List ℚ) :
    ∀ (r i : Nat) (first : List ℚ), i + r = value.length →
      first.length = value.length + 1 →
      SetExtra.loop value i r first = Except.ok (first.take (i + 1) ++ value.drop i) := by
  intro r
  induction r with
  | zero =>
    intro i first hi hlen
    have h1 : first.take (i + 1) = first := List.take_of_length_le (by omega)
    have h2 : value.drop i = [] := List.drop_of_length_le (by omega)
    simp [SetExtra.loop, h1, h2, pure, Except.pure]
  | succ r ih =>
    intro i first hi hlen
    have hiv : i < value.length := by omega
    have hx : elemAt value i = Except.ok value[i] :=
      elemAt_of_getElem? (List.getElem?_eq_getElem hiv)
    have hset : setAt first (i + 1) value[i] = Except.ok (first.set (i + 1) value[i]) := by
      unfold setAt
      rw [if_pos (by omega)]
      rfl
    simp only [SetExtra.loop, hx, hset, bind, Except.bind]
    rw [ih (i + 1) _ (by omega) (by simp [hlen])]
    have h3 : (first.set (i + 1) value[i]).take (i + 1 + 1)
        = first.take (i + 1) ++ [value[i]] := by
      rw [List.take_succ, List.set_take,
        List.set_eq_of_length_le (by rw [List.length_take]; omega),
        List.getElem?_set_self (by omega)]
      rfl
    rw [h3, List.append_assoc, List.singleton_append, ← List.drop_eq_getElem_cons hiv]

theorem storedScenario_valid : ValidIndices [1] storedScenario._num_points := by
  simp [ValidIndices, storedScenario]

/-! ### Claims about the stored data -/

theorem unflattenIndices_rowMajorOffset (cs ns : List Int) (h : ValidIndices cs ns) :
    unflattenIndices ns (rowMajorOffset cs ns) = cs := by
  induction h with
  | nil => rfl
  | @cons c n cs ns hcn hrest ih =>
    obtain ⟨h0, h1⟩ := rowMajorOffset_bounds cs ns hrest
    have hP : ns.prod ≠ 0 := (lt_of_le_of_lt h0 h1).ne'
    rw [rowMajorOffset_cons c cs n ns hrest.length_eq]
    simp only [unflattenIndices]
    have hdiv : (c * ns.prod + rowMajorOffset cs ns) / ns.prod = c := by
      rw [add_comm, Int.add_mul_ediv_right _ _ hP, Int.ediv_eq_zero_of_lt h0 h1, zero_add]
    have hmod : (c * ns.prod + rowMajorOffset cs ns) % ns.prod = rowMajorOffset cs ns := by
      rw [add_comm, Int.add_mul_emod_self, Int.emod_eq_of_lt h0 h1]
    rw [hdiv, hmod, ih]

/-- C8, as the code has it. For point counts whose product is an `int` (at most
`INT_MAX`) and a valid coordinate tuple, unflattening the offset that
`FlattenIndices` returns (the mixed-radix decomposition by the point counts)
recovers the tuple; hence a valid tuple with the same offset is the same tuple. -/
theorem unflattenIndices_FlattenIndices (idx point_count : List Int)
    (h : ValidIndices idx point_count) (hprod : point_count.prod ≤ INT_MAX) :
    (∃ offset, FlattenIndices idx point_count = Except.ok offset ∧
        unflattenIndices point_count offset = idx) ∧
      ∀ idx', ValidIndices idx' point_count →
        FlattenIndices idx' point_count = FlattenIndices idx point_count → idx' = idx := by
  refine ⟨⟨_, FlattenIndices_eq_offset idx point_count h hprod,
    unflattenIndices_rowMajorOffset idx point_count h⟩, ?_⟩
  intro idx' h' heq
  rw [FlattenIndices_eq_offset idx point_count h hprod,
    FlattenIndices_eq_offset idx' point_count h' hprod] at heq
  have heq' : rowMajorOffset idx' point_count = rowMajorOffset idx point_count := by
    simpa using heq
  rw [← unflattenIndices_rowMajorOffset idx' point_count h', heq',
    unflattenIndices_rowMajorOffset idx point_count h]

theorem unflattenIndices_FlattenIndices_witness :
    ValidIndices [1, 2, 3] [2, 5, 7] ∧ ([2, 5, 7] : List Int).prod ≤ INT_MAX ∧
      (∃ offset, FlattenIndices [1, 2, 3] [2, 5, 7] = Except.ok offset ∧
        unflattenIndices [2, 5, 7] offset = [1, 2, 3]) ∧
      ∀ idx', ValidIndices idx' [2, 5, 7] →
        FlattenIndices idx' [2, 5, 7] = FlattenIndices [1, 2, 3] [2, 5, 7] → idx' = [1, 2, 3] :=
  ⟨by simp [ValidIndices], by decide,
    unflattenIndices_FlattenIndices [1, 2, 3] [2, 5, 7] (by simp [ValidIndices]) (by decide)⟩

/-- C8, as stated, fails when the product of the point counts is not an `int`:
over the point counts `[2, 65536, 65536]` the valid tuples `[1, 0, 0]` and
`[0, 0, 0]` both flatten to 0, because `1 * 65536 * 65536` wraps to 0. -/
theorem FlattenIndices_not_injective :
    ValidIndices [1, 0, 0] [2, 65536, 65536] ∧ ValidIndices [0, 0, 0] [2, 65536, 65536] ∧
      FlattenIndices [1, 0, 0] [2, 65536, 65536] = Except.ok 0 ∧
      FlattenIndices [0, 0, 0] [2, 65536, 65536] = Except.ok 0 ∧
      ([1, 0, 0] : List Int) ≠ [0, 0, 0] := by
  refine ⟨by simp [ValidIndices], by simp [ValidIndices], rfl, rfl, by decide⟩

/-! ## Storage: what the mutators write -/

theorem SetExtra_outcome (g : Grid) (extra : Nat) (idx : List Int) (e : List ℚ)
    (hinv : StorageInv g extra) (hvalid : ValidIndices idx g._num_points) :
    (SetExtra g idx e).1 = Except.ok () ∨
      (SetExtra g idx e).1 = Except.error sizeMismatchError := by
  obtain ⟨flatten, node, hflat, -, hnode, hnlen⟩ := node_lookup g extra idx hinv hvalid
  by_cases hc : node.1.length = 0 ∨ e.length ≠ node.1.length - 1
  · right
    simp only [SetExtra, hflat, hnode, if_pos hc]
  · left
    have hlen : node.1.length = e.length + 1 := by omega
    have hloop := SetExtra.loop_ok e e.length 0 node.1 (by omega) hlen
    simp only [SetExtra, hflat, hnode, if_neg hc, hloop]

/-- C16, as the code has it. For point counts whose product is an `int` (at
most `INT_MAX`) and a valid coordinate tuple, `FlattenIndices` returns an offset
with `0 ≤ offset < product of the point counts`; on every grid with these point
counts that satisfies the storage invariant the offset lies inside the flat
storage, so `GetLocation`, `GetValue`, `GetExtra` and `SetValue` return and
`SetExtra` either returns or throws its size-mismatch error. -/
theorem FlattenIndices_in_bounds (idx point_count : List Int)
    (hvalid : ValidIndices idx point_count) (hprod : point_count.prod ≤ INT_MAX) :
    ∃ offset, FlattenIndices idx point_count = Except.ok offset ∧ 0 ≤ offset ∧
      offset < point_count.prod ∧
      ∀ (g : Grid) (extra : Nat), g._num_points = point_count → StorageInv g extra →
        offset.toNat < g._flatvector.length ∧
        (∃ node, elemAtInt g._flatvector offset = Except.ok node) ∧
        (∃ loc, GetLocation g idx = Except.ok loc) ∧
        (∃ x, GetValue g idx = Except.ok x) ∧
        (∃ e, GetExtra g idx = Except.ok e) ∧
        (∀ v, (SetValue g idx v).1 = Except.ok ()) ∧
        (∀ e, (SetExtra g idx e).1 = Except.ok () ∨
          (SetExtra g idx e).1 = Except.error sizeMismatchError) := by
  obtain ⟨h0, h1⟩ := rowMajorOffset_bounds idx point_count hvalid
  refine ⟨_, FlattenIndices_eq_offset idx point_count hvalid hprod, h0, h1, ?_⟩
  intro g extra hnum hinv
  subst hnum
  obtain ⟨flatten, node, hflat, hlt, hnode, hnlen⟩ := node_lookup g extra idx hinv hvalid
  have hoff : flatten = rowMajorOffset idx g._num_points := by
    rw [FlattenIndices_eq_offset idx g._num_points hvalid hprod] at hflat
    cases hflat
    rfl
  subst hoff
  have hval : elemAt node.1 0 = Except.ok node.1[0] :=
    elemAt_of_getElem? (List.getElem?_eq_getElem (by omega))
  have hset : ∀ v : ℚ, setAt node.1 0 v = Except.ok (node.1.set 0 v) := by
    intro v
    unfold setAt
    rw [if_pos (by omega)]
    rfl
  have hne : ¬ node.1.length = 0 := by omega
  refine ⟨hlt, ⟨node, hnode⟩, ⟨node.2, ?_⟩, ⟨node.1[0], ?_⟩, ⟨node.1.drop 1, ?_⟩, ?_,
    fun e => SetExtra_outcome g extra idx e hinv hvalid⟩
  · simp only [GetLocation, hflat, hnode, bind, Except.bind, pure, Except.pure]
  · simp only [GetValue, hflat, hnode, bind, Except.bind, hval]
  · simp only [GetExtra, hflat, hnode, bind, Except.bind, pure, Except.pure, hne, if_false]
  · intro v
    simp only [SetValue, hflat, hnode, hset v]

theorem FlattenIndices_in_bounds_witness :
    ValidIndices [1] [2] ∧ ([2] : List Int).prod ≤ INT_MAX ∧
      ∃ offset, FlattenIndices [1] [2] = Except.ok offset ∧ 0 ≤ offset ∧
        offset < ([2] : List Int).prod ∧
        ∀ (g : Grid) (extra : Nat), g._num_points = [2] → StorageInv g extra →
          offset.toNat < g._flatvector.length ∧
          (∃ node, elemAtInt g._flatvector offset = Except.ok node) ∧
          (∃ loc, GetLocation g [1] = Except.ok loc) ∧
          (∃ x, GetValue g [1] = Except.ok x) ∧
          (∃ e, GetExtra g [1] = Except.ok e) ∧
          (∀ v, (SetValue g [1] v).1 = Except.ok ()) ∧
          (∀ e, (SetExtra g [1] e).1 = Except.ok () ∨
            (SetExtra g [1] e).1 = Except.error sizeMismatchError) :=
  ⟨storedScenario_valid, by decide,
    FlattenIndices_in_bounds [1] [2] storedScenario_valid (by decide)⟩

/-- C16, as stated, fails when the product of the point counts is not an `int`:
over the point counts `[2, 65536, 65536]` the valid tuple `[1, 65535, 65535]`
flattens to `-1`, which is not a position of any flat storage. -/
theorem FlattenIndices_out_of_bounds :
    ValidIndices [1, 65535, 65535] [2, 65536, 65536] ∧
      FlattenIndices [1, 65535, 65535] [2, 65536, 65536] = Except.ok (-1) ∧
      ¬ (0 : Int) ≤ -1 := by
  refine ⟨by simp [ValidIndices], rfl, by decide⟩

/-! ### The frame of SetValue -/

/-- Without the storage invariant the frame fails: on a grid whose number of
grid points is not an `int` the valid tuples `[0, 0, 0]` and `[1, 0, 0]` flatten
to the same position, so `SetValue([0, 0, 0], 5)` changes `GetValue([1, 0, 0])`. -/
theorem SetValue_overflow_alias :
    ValidIndices [0, 0, 0] overflowScenario._num_points ∧
      ValidIndices [1, 0, 0] overflowScenario._num_points ∧
      GetValue overflowScenario [1, 0, 0] = Except.ok 0 ∧
      GetValue (SetValue overflowScenario [0, 0, 0] 5).2 [1, 0, 0] = Except.ok 5 := by
  refine ⟨by simp [ValidIndices, overflowScenario], by simp [ValidIndices, overflowScenario],
    rfl, rfl⟩

/-! ## Doubles: rounding lies between the neighbouring doubles -/

theorem roundHalfEven_ge_floor (q : ℚ) : ⌊q⌋ ≤ roundHalfEven q := by
  unfold roundHalfEven
  split_ifs <;> omega

theorem roundHalfEven_le_ceil (q : ℚ) : roundHalfEven q ≤ ⌈q⌉ := by
  unfold roundHalfEven
  have h1 := Int.floor_le_ceil q
  by_cases hq : (⌊q⌋ : ℚ) = q
  · rw [if_pos (by rw [hq]; norm_num)]
    exact h1
  · have hlt : (⌊q⌋ : ℚ) < q := lt_of_le_of_ne (Int.floor_le q) hq
    have h2 : ⌊q⌋ < ⌈q⌉ := Int.lt_ceil.mpr hlt
    split_ifs <;> omega

theorem ulp_pos (x : ℚ) : (0 : ℚ) < 2 ^ ulpExponent x := zpow_pos (by norm_num) _

theorem roundDouble_ge_of_multiple (x : ℚ) (M : Int)
    (h : (M : ℚ) * 2 ^ ulpExponent x ≤ x) : (M : ℚ) * 2 ^ ulpExponent x ≤ roundDouble x := by
  have hu := ulp_pos x
  have h1 : (M : ℚ) ≤ x / 2 ^ ulpExponent x := (le_div_iff₀ hu).mpr h
  have h2 : M ≤ roundHalfEven (x / 2 ^ ulpExponent x) :=
    le_trans (Int.le_floor.mpr h1) (roundHalfEven_ge_floor _)
  unfold roundDouble
  exact mul_le_mul_of_nonneg_right (by exact_mod_cast h2) hu.le

theorem roundDouble_le_of_multiple (x : ℚ) (M : Int)
    (h : x ≤ (M : ℚ) * 2 ^ ulpExponent x) : roundDouble x ≤ (M : ℚ) * 2 ^ ulpExponent x := by
  have hu := ulp_pos x
  have h1 : x / 2 ^ ulpExponent x ≤ (M : ℚ) := (div_le_iff₀ hu).mpr h
  have h2 : roundHalfEven (x / 2 ^ ulpExponent x) ≤ M :=
    le_trans (roundHalfEven_le_ceil _) (Int.ceil_le.mpr h1)
  unfold roundDouble
  exact mul_le_mul_of_nonneg_right (by exact_mod_cast h2) hu.le

theorem roundDouble_zero : roundDouble 0 = 0 := by
  have h1 := roundDouble_ge_of_multiple 0 0 (by simp)
  have h2 := roundDouble_le_of_multiple 0 0 (by simp)
  simp only [Int.cast_zero, zero_mul] at h1 h2
  exact le_antisymm h2 h1

/-- A double whose exponent is at least the exponent of the unit in the last
place of `x` is an integer multiple of that unit. -/
theorem multiple_of_ulp (x : ℚ) (m j : Int) (hj : ulpExponent x ≤ j) :
    ∃ M : Int, (m : ℚ) * 2 ^ j = (M : ℚ) * 2 ^ ulpExponent x := by
  refine ⟨m * 2 ^ (j - ulpExponent x).toNat, ?_⟩
  have hk : ((j - ulpExponent x).toNat : Int) = j - ulpExponent x :=
    Int.toNat_of_nonneg (by omega)
  have h2 : (2 : ℚ) ^ j = 2 ^ (j - ulpExponent x) * 2 ^ ulpExponent x := by
    rw [← zpow_add₀ (by norm_num : (2 : ℚ) ≠ 0)]
    congr 1
    ring
  have h3 : (2 : ℚ) ^ (j - ulpExponent x) = 2 ^ (j - ulpExponent x).toNat := by
    conv_lhs => rw [← hk]
    exact zpow_natCast 2 _
  rw [h2, h3]
  push_cast
  ring

/-- When the exponent of a double is below the exponent of the unit in the last
place of `x`, the double is at most the power of two at or below `|x|`. -/
theorem small_double (x : ℚ) (m j : Int) (hx : x ≠ 0) (hm : |m| < 2 ^ 53) (hj0 : -1074 ≤ j)
    (hj : j < ulpExponent x) :
    |(m : ℚ) * 2 ^ j| ≤ 2 ^ (52 : Int) * 2 ^ ulpExponent x ∧
      (2 : ℚ) ^ (52 : Int) * 2 ^ ulpExponent x ≤ |x| := by
  have hlog : ulpExponent x = Int.log 2 |x| - 52 := by
    unfold ulpExponent at hj ⊢
    rcases le_total (Int.log 2 |x|) (-1022) with h | h
    · rw [max_eq_right h] at hj
      omega
    · rw [max_eq_left h]
  have hpow : (2 : ℚ) ^ (52 : Int) * 2 ^ ulpExponent x = 2 ^ Int.log 2 |x| := by
    rw [← zpow_add₀ (by norm_num : (2 : ℚ) ≠ 0), hlog]
    congr 1
    ring
  constructor
  · rw [hpow, abs_mul, abs_of_pos (zpow_pos (by norm_num : (0 : ℚ) < 2) j)]
    have hm1 : |(m : ℚ)| ≤ 2 ^ (53 : Int) := by
      rw [← Int.cast_abs]
      have : ((|m| : Int) : ℚ) ≤ ((2 ^ 53 : Int) : ℚ) := Int.cast_le.mpr hm.le
      calc ((|m| : Int) : ℚ) ≤ ((2 ^ 53 : Int) : ℚ) := this
        _ = 2 ^ (53 : Int) := by norm_num
    calc |(m : ℚ)| * 2 ^ j ≤ 2 ^ (53 : Int) * 2 ^ j :=
          mul_le_mul_of_nonneg_right hm1 (zpow_pos (by norm_num : (0 : ℚ) < 2) j).le
      _ = 2 ^ (53 + j) := (zpow_add₀ (by norm_num : (2 : ℚ) ≠ 0) 53 j).symm
      _ ≤ 2 ^ Int.log 2 |x| := zpow_le_zpow_right₀ (by norm_num) (by omega)
  · rw [hpow]
    have := Int.zpow_log_le_self (R := ℚ) (b := 2) (r := |x|) (by norm_num) (abs_pos.mpr hx)
    simpa using this

theorem roundDouble_ge (x a : ℚ) (ha : IsDouble a) (h : a ≤ x) : a ≤ roundDouble x := by
  obtain ⟨m, j, hm, hj0, -, rfl⟩ := ha
  by_cases hx : x = 0
  · subst hx
    rw [roundDouble_zero]
    exact h
  rcases le_or_lt (ulpExponent x) j with hj | hj
  · obtain ⟨M, hM⟩ := multiple_of_ulp x m j hj
    rw [hM] at h ⊢
    exact roundDouble_ge_of_multiple x M h
  · obtain ⟨h1, h2⟩ := small_double x m j hx hm hj0 hj
    rcases lt_or_gt_of_ne hx with hneg | hpos
    · have hxa : |x| = -x := abs_of_neg hneg
      have haa : |(m : ℚ) * 2 ^ j| = -((m : ℚ) * 2 ^ j) := abs_of_neg (lt_of_le_of_lt h hneg)
      have hxe : x = ((-2 ^ 52 : Int) : ℚ) * 2 ^ ulpExponent x := by
        push_cast
        have e1 : (2 : ℚ) ^ (52 : Int) = 2 ^ 52 := by norm_num
        rw [e1] at h1 h2
        linarith
      have := roundDouble_ge_of_multiple x (-2 ^ 52) (le_of_eq hxe.symm)
      rw [← hxe] at this
      exact le_trans h this
    · have hxa : |x| = x := abs_of_pos hpos
      have hge := roundDouble_ge_of_multiple x (2 ^ 52) (by
        push_cast
        have e1 : (2 : ℚ) ^ (52 : Int) = 2 ^ 52 := by norm_num
        rw [e1, hxa] at h2
        exact h2)
      have e1 : (2 : ℚ) ^ (52 : Int) = 2 ^ 52 := by norm_num
      push_cast at hge
      rw [e1] at h1
      exact le_trans (le_trans (le_abs_self _) h1) hge

theorem roundDouble_le (x b : ℚ) (hb : IsDouble b) (h : x ≤ b) : roundDouble x ≤ b := by
  obtain ⟨m, j, hm, hj0, -, rfl⟩ := hb
  by_cases hx : x = 0
  · subst hx
    rw [roundDouble_zero]
    exact h
  rcases le_or_lt (ulpExponent x) j with hj | hj
  · obtain ⟨M, hM⟩ := multiple_of_ulp x m j hj
    rw [hM] at h ⊢
    exact roundDouble_le_of_multiple x M h
  · obtain ⟨h1, h2⟩ := small_double x m j hx hm hj0 hj
    have e1 : (2 : ℚ) ^ (52 : Int) = 2 ^ 52 := by norm_num
    rw [e1] at h1 h2
    rcases lt_or_gt_of_ne hx with hneg | hpos
    · have hxa : |x| = -x := abs_of_neg hneg
      rw [hxa] at h2
      have hle := roundDouble_le_of_multiple x (-2 ^ 52) (by
        push_cast
        linarith)
      push_cast at hle
      have hb1 : -|(m : ℚ) * 2 ^ j| ≤ (m : ℚ) * 2 ^ j := neg_abs_le _
      linarith
    · have hxa : |x| = x := abs_of_pos hpos
      have hba : |(m : ℚ) * 2 ^ j| = (m : ℚ) * 2 ^ j := abs_of_pos (lt_of_lt_of_le hpos h)
      rw [hxa] at h2
      rw [hba] at h1
      have hxe : x = ((2 ^ 52 : Int) : ℚ) * 2 ^ ulpExponent x := by
        push_cast
        linarith
      have := roundDouble_le_of_multiple x (2 ^ 52) (le_of_eq hxe)
      rw [← hxe] at this
      exact le_trans this h

theorem IsDouble.abs_lt (a : ℚ) (ha : IsDouble a) : |a| < 2 ^ (1024 : Nat) := by
  obtain ⟨m, j, hm, -, hj, rfl⟩ := ha
  rw [abs_mul, abs_of_pos (zpow_pos (by norm_num : (0 : ℚ) < 2) j)]
  have hm1 : |(m : ℚ)| < 2 ^ (53 : Int) := by
    rw [← Int.cast_abs]
    have : ((|m| : Int) : ℚ) < ((2 ^ 53 : Int) : ℚ) := Int.cast_lt.mpr hm
    calc ((|m| : Int) : ℚ) < ((2 ^ 53 : Int) : ℚ) := this
      _ = 2 ^ (53 : Int) := by norm_num
  calc |(m : ℚ)| * 2 ^ j < 2 ^ (53 : Int) * 2 ^ j :=
        mul_lt_mul_of_pos_right hm1 (zpow_pos (by norm_num : (0 : ℚ) < 2) j)
    _ = 2 ^ (53 + j) := (zpow_add₀ (by norm_num : (2 : ℚ) ≠ 0) 53 j).symm
    _ ≤ 2 ^ (1024 : Int) := zpow_le_zpow_right₀ (by norm_num) (by omega)
    _ = 2 ^ (1024 : Nat) := by norm_num

theorem fl_eq_some {x r : ℚ} (h : fl x = some r) : r = roundDouble x := by
  unfold fl at h
  split_ifs at h
  cases h
  rfl

/-- Rounding is monotone across doubles: a result bracketed by two doubles is
rounded to a double between them. -/
theorem fl_bracket (x a b : ℚ) (ha : IsDouble a) (hb : IsDouble b) (hax : a ≤ x)
    (hxb : x ≤ b) : ∃ r, fl x = some r ∧ a ≤ r ∧ r ≤ b := by
  have h1 := roundDouble_ge x a ha hax
  have h2 := roundDouble_le x b hb hxb
  have ha1 := IsDouble.abs_lt a ha
  have hb1 := IsDouble.abs_lt b hb
  refine ⟨roundDouble x, ?_, h1, h2⟩
  unfold fl
  rw [if_pos]
  rw [abs_lt] at ha1 hb1 ⊢
  constructor <;> linarith [ha1.1, hb1.2]

theorem fl_exact (a : ℚ) (ha : IsDouble a) : fl a = some a := by
  obtain ⟨r, hr, h1, h2⟩ := fl_bracket a a a ha ha le_rfl le_rfl
  rw [hr, le_antisymm h2 h1]

theorem isDouble_dyadic (a : ℚ) (m : Int) (k : Nat) (hm : |m| < 2 ^ 53) (hk : k ≤ 1074)
    (ha : a * 2 ^ k = m) : IsDouble a := by
  refine ⟨m, -(k : Int), hm, by omega, by omega, ?_⟩
  rw [← ha, zpow_neg, zpow_natCast]
  field_simp

theorem isDouble_zero : IsDouble 0 := isDouble_dyadic 0 0 0 (by norm_num) (by norm_num) (by norm_num)

theorem isDouble_half : IsDouble (1 / 2) :=
  isDouble_dyadic (1 / 2) 1 1 (by norm_num) (by norm_num) (by norm_num)

theorem isDouble_neg_half : IsDouble (-(1 / 2)) :=
  isDouble_dyadic (-(1 / 2)) (-1) 1 (by norm_num) (by norm_num) (by norm_num)

theorem fl_nonpos {x r : ℚ} (h : fl x = some r) (hx : x ≤ 0) : r ≤ 0 := by
  rw [fl_eq_some h]
  exact roundDouble_le x 0 isDouble_zero hx

theorem fl_nonneg {x r : ℚ} (h : fl x = some r) (hx : 0 ≤ x) : 0 ≤ r := by
  rw [fl_eq_some h]
  exact roundDouble_ge x 0 isDouble_zero hx

theorem fl_le_neg_half {x r : ℚ} (h : fl x = some r) (hx : x ≤ -(1 / 2)) : r ≤ -(1 / 2) := by
  rw [fl_eq_some h]
  exact roundDouble_le x _ isDouble_neg_half hx

theorem fl_ge_half {x r : ℚ} (h : fl x = some r) (hx : 1 / 2 ≤ x) : 1 / 2 ≤ r := by
  rw [fl_eq_some h]
  exact roundDouble_ge x _ isDouble_half hx

/-! ## GetIndices: wrap and clamp -/

theorem tmod_neg_bounds (w n : Int) (hw : w < 0) (hn : 0 < n) :
    -n < w.tmod n ∧ w.tmod n ≤ 0 := by
  have h1 : w.tmod n = -((-w).tmod n) := by
    rw [Int.tmod_def, Int.tmod_def, Int.neg_tdiv]
    ring
  have h2 : 0 ≤ (-w).tmod n := Int.tmod_nonneg n (by omega)
  have h3 : (-w).tmod n < n := Int.tmod_lt_of_pos (-w) hn
  omega

theorem wrapVertex_eq_emod (w n : Int) (hn : 0 < n) : wrapVertex w n = w % n := by
  have hdef : w.tmod n = w - n * w.tdiv n := Int.tmod_def w n
  have hlt : w.tmod n < n := Int.tmod_lt_of_pos w hn
  have hgt : -n < w.tmod n := by
    rcases lt_or_le w 0 with hw | hw
    · exact (tmod_neg_bounds w n hw hn).1
    · have := Int.tmod_nonneg n hw
      omega
  unfold wrapVertex
  split_ifs with h
  · have e : w.tmod n + n = w + n * (1 - w.tdiv n) := by rw [hdef]; ring
    rw [← Int.add_mul_emod_self_left w n (1 - w.tdiv n), ← e]
    exact (Int.emod_eq_of_lt (by omega) (by omega)).symm
  · have e : w.tmod n = w + n * (- w.tdiv n) := by rw [hdef]; ring
    rw [← Int.add_mul_emod_self_left w n (- w.tdiv n), ← e]
    exact (Int.emod_eq_of_lt (by omega) (by omega)).symm

theorem castInt_range (x : Option ℚ) : INT_MIN ≤ castInt x ∧ castInt x ≤ INT_MAX := by
  unfold castInt
  cases x with
  | none => exact ⟨le_rfl, by decide⟩
  | some y =>
    simp only []
    split_ifs with h
    · exact h
    · exact ⟨le_rfl, by decide⟩

theorem rawVertex_range (v lower spacing : ℚ) :
    INT_MIN ≤ rawVertex v lower spacing ∧ rawVertex v lower spacing ≤ INT_MAX :=
  castInt_range _

theorem rawVertex_eq (v lower spacing : ℚ) :
    (if v < lower then
        castInt (dsub (ddiv (dsub (some v) (some lower)) (some spacing)) (some (1 / 2)))
      else castInt (dadd (ddiv (dsub (some v) (some lower)) (some spacing)) (some (1 / 2))))
      = rawVertex v lower spacing := by
  unfold rawVertex rawDouble
  split_ifs <;> rfl

theorem emod_int_range (w n : Int) (hn : 0 < n) (h0 : INT_MIN ≤ w) (h1 : w ≤ INT_MAX)
    (ht : ¬ w.tmod n < 0) : INT_MIN ≤ w % n ∧ w % n ≤ INT_MAX := by
  have hw := wrapVertex_eq_emod w n hn
  unfold wrapVertex at hw
  rw [if_neg ht] at hw
  have hnn : 0 ≤ w % n := Int.emod_nonneg _ (by omega)
  unfold INT_MIN at *
  unfold INT_MAX at *
  refine ⟨by omega, ?_⟩
  rcases lt_or_le w 0 with hneg | hpos
  · have := (tmod_neg_bounds w n hneg hn).2
    omega
  · have h2 : 0 ≤ w / n := Int.ediv_nonneg hpos hn.le
    have h3 : w % n = w - n * (w / n) := Int.emod_def w n
    have h4 : 0 ≤ n * (w / n) := mul_nonneg hn.le h2
    omega

theorem GetIndices.vertex_periodic_wrapped (v lower spacing : ℚ) (n : Int) (hn : 0 < n) :
    GetIndices.vertex v lower spacing true n
      = Except.ok (if wrapInt (rawVertex v lower spacing % n) < 0 then 0
          else if wrapInt (rawVertex v lower spacing % n) ≥ n then wrapInt (n - 1)
          else wrapInt (rawVertex v lower spacing % n)) := by
  have hn0 : ¬ (n = 0 ∨ (rawVertex v lower spacing = INT_MIN ∧ n = -1)) := by omega
  have hw := wrapVertex_eq_emod (rawVertex v lower spacing) n hn
  unfold wrapVertex at hw
  simp only [GetIndices.vertex, rawVertex_eq, hn0, if_false, bind, Except.bind, pure,
    Except.pure, if_true]
  by_cases ht : (rawVertex v lower spacing).tmod n < 0
  · rw [if_pos ht] at hw
    rw [if_pos ht, hw]
  · have hr := emod_int_range _ n hn (rawVertex_range v lower spacing).1
      (rawVertex_range v lower spacing).2 ht
    rw [if_neg ht] at hw
    rw [if_neg ht, hw, wrapInt_of_int _ hr.1 hr.2]

theorem GetIndices.vertex_periodic (v lower spacing : ℚ) (n : Int)
    (_hs : spacing ≠ 0) (hn : 0 < n) (hmax : n ≤ INT_MAX) :
    GetIndices.vertex v lower spacing true n = Except.ok (rawVertex v lower spacing % n) := by
  have h0 : 0 ≤ rawVertex v lower spacing % n := Int.emod_nonneg _ (by omega)
  have h1 : rawVertex v lower spacing % n < n := Int.emod_lt_of_pos _ hn
  rw [GetIndices.vertex_periodic_wrapped v lower spacing n hn,
    wrapInt_of_int _ (by unfold INT_MIN; omega) (by omega), if_neg (by omega), if_neg (by omega)]

theorem GetIndices.vertex_nonperiodic_wrapped (v lower spacing : ℚ) (n : Int) :
    GetIndices.vertex v lower spacing false n
      = Except.ok (if rawVertex v lower spacing < 0 then 0
          else if rawVertex v lower spacing ≥ n then wrapInt (n - 1)
          else rawVertex v lower spacing) := by
  simp only [GetIndices.vertex, rawVertex_eq, if_false, bind, Except.bind, pure,
    Except.pure, Bool.false_eq_true]

theorem GetIndices.vertex_nonperiodic (v lower spacing : ℚ) (n : Int) (_hs : spacing ≠ 0)
    (hn : 1 ≤ n) :
    GetIndices.vertex v lower spacing false n
      = Except.ok (if rawVertex v lower spacing < 0 then 0
          else if rawVertex v lower spacing ≥ n then n - 1
          else rawVertex v lower spacing) := by
  rw [GetIndices.vertex_nonperiodic_wrapped]
  have hr := (rawVertex_range v lower spacing).2
  by_cases h : rawVertex v lower spacing ≥ n
  · rw [wrapInt_of_int (n - 1) (by unfold INT_MIN; omega) (by omega)]
  · simp only [if_neg h]

theorem clamp_range (w n : Int) (hw : w ≤ INT_MAX) (hn : 1 ≤ n) :
    0 ≤ (if w < 0 then 0 else if w ≥ n then wrapInt (n - 1) else w) ∧
      (if w < 0 then 0 else if w ≥ n then wrapInt (n - 1) else w) < n := by
  by_cases h : w ≥ n
  · rw [wrapInt_of_int (n - 1) (by unfold INT_MIN; omega) (by omega)]
    split_ifs <;> omega
  · simp only [if_neg h]
    split_ifs <;> omega

theorem GetIndices.vertex_range (v lower spacing : ℚ) (periodic : Bool) (n : Int)
    (_hs : spacing ≠ 0) (hn : 1 ≤ n) :
    ∃ k, GetIndices.vertex v lower spacing periodic n = Except.ok k ∧ 0 ≤ k ∧ k < n := by
  cases periodic with
  | true =>
    exact ⟨_, GetIndices.vertex_periodic_wrapped v lower spacing n (by omega),
      clamp_range _ n (wrapInt_range _).2 hn⟩
  | false =>
    exact ⟨_, GetIndices.vertex_nonperiodic_wrapped v lower spacing n,
      clamp_range _ n (rawVertex_range v lower spacing).2 hn⟩

theorem GetIndices.loop_range (g : Grid) (val : List ℚ)
    (hlower : val.length ≤ g._lower.length) (hspacing : val.length ≤ g._spacing.length)
    (hperiodic : val.length ≤ g._periodic.length)
    (hnum : val.length ≤ g._num_points.length)
    (hpts : ∀ n ∈ g._num_points, 1 ≤ n) (hsp : ∀ s ∈ g._spacing, s ≠ 0) :
    ∀ (r i : Nat) (acc : List Int), i + r = val.length → acc.length = i →
      (∀ (j : Nat) (k n : Int), acc[j]? = some k → g._num_points[j]? = some n → 0 ≤ k ∧ k < n) →
      ∃ out, GetIndices.loop g val i r acc = Except.ok out ∧ out.length = val.length ∧
        ∀ (j : Nat) (k n : Int), out[j]? = some k → g._num_points[j]? = some n →
          0 ≤ k ∧ k < n := by
  intro r
  induction r with
  | zero =>
    intro i acc hi hacc hinv
    exact ⟨acc, rfl, by omega, hinv⟩
  | succ r ih =>
    intro i acc hi hacc hinv
    obtain ⟨v, -, hv⟩ := elemAt_of_lt (show i < val.length by omega)
    obtain ⟨lo, -, hlo⟩ := elemAt_of_lt (show i < g._lower.length by omega)
    obtain ⟨s, hs, hs'⟩ := elemAt_of_lt (show i < g._spacing.length by omega)
    obtain ⟨p, -, hp⟩ := elemAt_of_lt (show i < g._periodic.length by omega)
    obtain ⟨n, hn, hn'⟩ := elemAt_of_lt (show i < g._num_points.length by omega)
    obtain ⟨k, hk, hk0, hk1⟩ := GetIndices.vertex_range v lo s p n
      (hsp s (List.getElem?_mem hs)) (hpts n (List.getElem?_mem hn))
    simp only [GetIndices.loop, hv, hlo, hs', hp, hn', hk, bind, Except.bind]
    apply ih (i + 1) (acc ++ [k]) (by omega) (by simp [hacc])
    intro j kj nj hj hnj
    rcases Nat.lt_or_ge j acc.length with hlt | hge
    · rw [List.getElem?_append_left hlt] at hj
      exact hinv j kj nj hj hnj
    · rw [List.getElem?_append_right hge] at hj
      have hj0 : j - acc.length = 0 := by
        by_contra hne
        obtain ⟨m, hm⟩ := Nat.exists_eq_succ_of_ne_zero hne
        rw [hm] at hj
        simp at hj
      have hji : j = i := by omega
      rw [hj0] at hj
      simp only [List.getElem?_cons_zero, Option.some.injEq] at hj
      subst hji
      rw [hn] at hnj
      simp only [Option.some.injEq] at hnj
      subst hj hnj
      exact ⟨hk0, hk1⟩

/-- C3. On a grid whose axes each have at least one point and a non-zero
spacing, `GetIndices` returns one coordinate per input value, and the coordinate
on every axis `j` lies in `[0, num_points[j])`, for every input value. -/
theorem GetIndices_in_range (g : Grid) (val : List ℚ)
    (hlower : val.length ≤ g._lower.length) (hspacing : val.length ≤ g._spacing.length)
    (hperiodic : val.length ≤ g._periodic.length)
    (hnum : val.length ≤ g._num_points.length)
    (hpts : ∀ n ∈ g._num_points, 1 ≤ n) (hsp : ∀ s ∈ g._spacing, s ≠ 0) :
    ∃ out, GetIndices g val = Except.ok out ∧ out.length = val.length ∧
      ∀ (j : Nat) (k n : Int), out[j]? = some k → g._num_points[j]? = some n →
        0 ≤ k ∧ k < n := by
  apply GetIndices.loop_range g val hlower hspacing hperiodic hnum hpts hsp val.length 0 []
    (by omega) rfl
  intro j k n hj
  simp at hj


theorem GetIndices_in_range_witness :
    (∀ n ∈ clampScenario._num_points, (1 : Int) ≤ n) ∧
      (∀ s ∈ clampScenario._spacing, s ≠ 0) ∧
      ∃ out, GetIndices clampScenario [-5, 76 / 100] = Except.ok out ∧
        out.length = [(-5 : ℚ), 76 / 100].length ∧
        ∀ (j : Nat) (k n : Int), out[j]? = some k → clampScenario._num_points[j]? = some n →
          0 ≤ k ∧ k < n :=
  ⟨by simp [clampScenario], by simp [clampScenario],
    GetIndices_in_range clampScenario [-5, 76 / 100] (by simp [clampScenario])
      (by simp [clampScenario]) (by simp [clampScenario]) (by simp [clampScenario])
      (by simp [clampScenario]) (by simp [clampScenario])⟩

/-! ## GetIndices: the double passed to the conversion -/

theorem truncate_of_nonneg {y : ℚ} (h : 0 ≤ y) : truncate y = ⌊y⌋ := by
  unfold truncate
  rw [if_pos h]

theorem truncate_of_neg {y : ℚ} (h : y < 0) : truncate y = ⌈y⌉ := by
  unfold truncate
  rw [if_neg (not_le.mpr h)]

theorem castInt_some {y : ℚ} (h0 : INT_MIN ≤ truncate y) (h1 : truncate y ≤ INT_MAX) :
    castInt (some y) = truncate y := by
  unfold castInt
  simp only []
  rw [if_pos ⟨h0, h1⟩]

theorem castInt_overflow {y : ℚ} (h : INT_MAX < truncate y) : castInt (some y) = INT_MIN := by
  unfold castInt
  simp only []
  rw [if_neg (by omega)]

theorem castInt_of_floor {y : ℚ} {z : Int} (h0 : 0 ≤ z) (h1 : z ≤ INT_MAX) (hl : (z : ℚ) ≤ y)
    (hu : y < z + 1) : castInt (some y) = z := by
  have hy : 0 ≤ y := le_trans (by exact_mod_cast h0) hl
  have hz : truncate y = z := by
    rw [truncate_of_nonneg hy]
    exact Int.floor_eq_iff.mpr ⟨hl, hu⟩
  rw [castInt_some (by rw [hz]; unfold INT_MIN; omega) (by rw [hz]; exact h1), hz]

theorem castInt_of_ceil {y : ℚ} {z : Int} (h0 : z ≤ 0) (h1 : INT_MIN ≤ z) (hy : y < 0)
    (hl : (z : ℚ) - 1 < y) (hu : y ≤ z) : castInt (some y) = z := by
  have hz : truncate y = z := by
    rw [truncate_of_neg hy]
    exact Int.ceil_eq_iff.mpr ⟨hl, hu⟩
  rw [castInt_some (by rw [hz]; exact h1) (by rw [hz]; unfold INT_MAX; omega), hz]

/-- Below the lower bound the three operations of line 84, bracketed by doubles. -/
theorem rawDouble_below (v lower spacing a b : ℚ) (hs : 0 < spacing) (hv : v < lower)
    (hav : a ≤ v - lower) (hvb : v - lower ≤ b) (ha : IsDouble a) (hb : IsDouble b)
    (ha1 : IsDouble (a / spacing)) (hb1 : IsDouble (b / spacing))
    (ha2 : IsDouble (a / spacing - 1 / 2)) (hb2 : IsDouble (b / spacing - 1 / 2)) :
    ∃ y, rawDouble v lower spacing = some y ∧ a / spacing - 1 / 2 ≤ y ∧
      y ≤ b / spacing - 1 / 2 := by
  obtain ⟨d, hd, hd1, hd2⟩ := fl_bracket (v - lower) a b ha hb hav hvb
  obtain ⟨q, hq, hq1, hq2⟩ := fl_bracket (d / spacing) (a / spacing) (b / spacing) ha1 hb1
    (div_le_div_of_nonneg_right hd1 hs.le) (div_le_div_of_nonneg_right hd2 hs.le)
  obtain ⟨y, hy, hy1, hy2⟩ := fl_bracket (q - 1 / 2) (a / spacing - 1 / 2)
    (b / spacing - 1 / 2) ha2 hb2 (by linarith) (by linarith)
  refine ⟨y, ?_, hy1, hy2⟩
  unfold rawDouble
  rw [if_pos hv]
  simp only [dsub, ddiv, Option.bind, hd, hq, hy, hs.ne', if_false]

/-- At or above the lower bound the three operations of line 86, bracketed by
doubles. -/
theorem rawDouble_above (v lower spacing a b : ℚ) (hs : 0 < spacing) (hv : lower ≤ v)
    (hav : a ≤ v - lower) (hvb : v - lower ≤ b) (ha : IsDouble a) (hb : IsDouble b)
    (ha1 : IsDouble (a / spacing)) (hb1 : IsDouble (b / spacing))
    (ha2 : IsDouble (a / spacing + 1 / 2)) (hb2 : IsDouble (b / spacing + 1 / 2)) :
    ∃ y, rawDouble v lower spacing = some y ∧ a / spacing + 1 / 2 ≤ y ∧
      y ≤ b / spacing + 1 / 2 := by
  obtain ⟨d, hd, hd1, hd2⟩ := fl_bracket (v - lower) a b ha hb hav hvb
  obtain ⟨q, hq, hq1, hq2⟩ := fl_bracket (d / spacing) (a / spacing) (b / spacing) ha1 hb1
    (div_le_div_of_nonneg_right hd1 hs.le) (div_le_div_of_nonneg_right hd2 hs.le)
  obtain ⟨y, hy, hy1, hy2⟩ := fl_bracket (q + 1 / 2) (a / spacing + 1 / 2)
    (b / spacing + 1 / 2) ha2 hb2 (by linarith) (by linarith)
  refine ⟨y, ?_, hy1, hy2⟩
  unfold rawDouble
  rw [if_neg (not_lt.mpr hv)]
  simp only [dsub, ddiv, dadd, Option.bind, hd, hq, hy, hs.ne', if_false]

theorem rawVertex_below (v lower spacing a b : ℚ) (z : Int) (hs : 0 < spacing)
    (hv : v < lower) (hav : a ≤ v - lower) (hvb : v - lower ≤ b) (ha : IsDouble a)
    (hb : IsDouble b) (ha1 : IsDouble (a / spacing)) (hb1 : IsDouble (b / spacing))
    (ha2 : IsDouble (a / spacing - 1 / 2)) (hb2 : IsDouble (b / spacing - 1 / 2))
    (hz0 : z ≤ 0) (hz1 : INT_MIN ≤ z) (hneg : b / spacing - 1 / 2 < 0)
    (hl : (z : ℚ) - 1 < a / spacing - 1 / 2) (hu : b / spacing - 1 / 2 ≤ z) :
    rawVertex v lower spacing = z := by
  obtain ⟨y, hy, hy1, hy2⟩ := rawDouble_below v lower spacing a b hs hv hav hvb ha hb ha1 hb1
    ha2 hb2
  unfold rawVertex
  rw [hy]
  exact castInt_of_ceil hz0 hz1 (by linarith) (by linarith) (by linarith)

theorem rawVertex_above (v lower spacing a b : ℚ) (z : Int) (hs : 0 < spacing)
    (hv : lower ≤ v) (hav : a ≤ v - lower) (hvb : v - lower ≤ b) (ha : IsDouble a)
    (hb : IsDouble b) (ha1 : IsDouble (a / spacing)) (hb1 : IsDouble (b / spacing))
    (ha2 : IsDouble (a / spacing + 1 / 2)) (hb2 : IsDouble (b / spacing + 1 / 2))
    (hz0 : 0 ≤ z) (hz1 : z ≤ INT_MAX)
    (hl : (z : ℚ) ≤ a / spacing + 1 / 2) (hu : b / spacing + 1 / 2 < z + 1) :
    rawVertex v lower spacing = z := by
  obtain ⟨y, hy, hy1, hy2⟩ := rawDouble_above v lower spacing a b hs hv hav hvb ha hb ha1 hb1
    ha2 hb2
  unfold rawVertex
  rw [hy]
  exact castInt_of_floor hz0 hz1 (by linarith) (by linarith)

/-- When the difference, the quotient and the shifted quotient are doubles, no
operation of lines 83-86 rounds. -/
theorem rawDouble_exact (v lower spacing : ℚ) (hs : spacing ≠ 0) (h1 : IsDouble (v - lower))
    (h2 : IsDouble ((v - lower) / spacing)) (h3 : IsDouble (exactRaw v lower spacing)) :
    rawDouble v lower spacing = some (exactRaw v lower spacing) := by
  unfold exactRaw at h3 ⊢
  unfold rawDouble
  split_ifs at h3 ⊢ with hv
  · simp only [dsub, ddiv, Option.bind, fl_exact _ h1, fl_exact _ h2, fl_exact _ h3, hs,
      if_false]
  · simp only [dsub, ddiv, dadd, Option.bind, fl_exact _ h1, fl_exact _ h2, fl_exact _ h3, hs,
      if_false]

/-! ## GetIndices: evaluation at concrete values -/

theorem GetIndices_one_periodic_axis (g : Grid) (lower spacing : ℚ) (n : Int) (v : ℚ)
    (z : Int) (hlower : g._lower = [lower]) (hspacing : g._spacing = [spacing])
    (hperiodic : g._periodic = [true]) (hnum : g._num_points = [n]) (hs : spacing ≠ 0)
    (hn : 0 < n) (hmax : n ≤ INT_MAX) (h : rawVertex v lower spacing = z) :
    GetIndices g [v] = Except.ok [z % n] := by
  simp only [GetIndices, GetIndices.loop, hlower, hspacing, hperiodic, hnum, List.length_cons,
    List.length_nil, elemAt_cons_zero, bind, Except.bind, pure, Except.pure, List.nil_append]
  rw [GetIndices.vertex_periodic v lower spacing n hs hn hmax, h]

theorem GetIndices_one_clamped_axis (g : Grid) (lower spacing : ℚ) (n : Int) (v : ℚ)
    (z : Int) (hlower : g._lower = [lower]) (hspacing : g._spacing = [spacing])
    (hperiodic : g._periodic = [false]) (hnum : g._num_points = [n]) (hs : spacing ≠ 0)
    (hn : 1 ≤ n) (h : rawVertex v lower spacing = z) :
    GetIndices g [v] = Except.ok [if z < 0 then 0 else if z ≥ n then n - 1 else z] := by
  simp only [GetIndices, GetIndices.loop, hlower, hspacing, hperiodic, hnum, List.length_cons,
    List.length_nil, elemAt_cons_zero, bind, Except.bind, pure, Except.pure, List.nil_append]
  rw [GetIndices.vertex_nonperiodic v lower spacing n hs hn, h]

theorem periodicScenario_eval (v : ℚ) (z : Int) (h : rawVertex v 0 1 = z) :
    GetIndices periodicScenario [v] = Except.ok [z % 10] :=
  GetIndices_one_periodic_axis periodicScenario 0 1 10 v z rfl rfl rfl rfl (by norm_num)
    (by norm_num) (by decide) h

theorem GetIndices_two_clamped_axes (g : Grid) (l1 l2 s1 s2 : ℚ) (n1 n2 : Int) (v w : ℚ)
    (a b : Int) (hlower : g._lower = [l1, l2]) (hspacing : g._spacing = [s1, s2])
    (hperiodic : g._periodic = [false, false]) (hnum : g._num_points = [n1, n2])
    (hs1 : s1 ≠ 0) (hs2 : s2 ≠ 0) (hn1 : 1 ≤ n1) (hn2 : 1 ≤ n2)
    (ha : rawVertex v l1 s1 = a) (hb : rawVertex w l2 s2 = b) :
    GetIndices g [v, w]
      = Except.ok [if a < 0 then 0 else if a ≥ n1 then n1 - 1 else a,
          if b < 0 then 0 else if b ≥ n2 then n2 - 1 else b] := by
  have h1 := GetIndices.vertex_nonperiodic v l1 s1 n1 hs1 hn1
  have h2 := GetIndices.vertex_nonperiodic w l2 s2 n2 hs2 hn2
  rw [ha] at h1
  rw [hb] at h2
  simp only [GetIndices, GetIndices.loop, hlower, hspacing, hperiodic, hnum, List.length_cons,
    List.length_nil, elemAt_cons_zero, elemAt_cons_succ, bind, Except.bind, pure, Except.pure,
    List.nil_append, h1, h2, List.singleton_append]

theorem clampScenario_eval (v w : ℚ) (a b : Int) (ha : rawVertex v 0 (1 / 2) = a)
    (hb : rawVertex w 0 (1 / 2) = b) :
    GetIndices clampScenario [v, w]
      = Except.ok [if a < 0 then 0 else if a ≥ 3 then 3 - 1 else a,
          if b < 0 then 0 else if b ≥ 3 then 3 - 1 else b] :=
  GetIndices_two_clamped_axes clampScenario 0 0 (1 / 2) (1 / 2) 3 3 v w a b rfl rfl rfl rfl
    (by norm_num) (by norm_num) (by norm_num) (by norm_num) ha hb

theorem periodicScenario_above : GetIndices periodicScenario [104 / 10] = Except.ok [0] := by
  rw [periodicScenario_eval (104 / 10) 10
    (rawVertex_above (104 / 10) 0 1 10 (167 / 16) (10) (by norm_num) (by norm_num)
      (by norm_num) (by norm_num)
      (isDouble_dyadic (10) (10) 0 (by norm_num) (by norm_num) (by norm_num))
      (isDouble_dyadic ((167 / 16)) (167) 4 (by norm_num) (by norm_num) (by norm_num))
      (isDouble_dyadic (10 / 1) (10) 0 (by norm_num) (by norm_num) (by norm_num))
      (isDouble_dyadic ((167 / 16) / 1) (167) 4 (by norm_num) (by norm_num) (by norm_num))
      (isDouble_dyadic (10 / 1 + 1 / 2) (21) 1 (by norm_num) (by norm_num) (by norm_num))
      (isDouble_dyadic ((167 / 16) / 1 + 1 / 2) (175) 4 (by norm_num) (by norm_num) (by norm_num))
      (by norm_num) (by decide) (by norm_num) (by norm_num))]
  rfl

theorem periodicScenario_below : GetIndices periodicScenario [-4 / 10] = Except.ok [0] := by
  rw [periodicScenario_eval (-4 / 10) 0
    (rawVertex_below (-4 / 10) 0 1 (-7 / 16) (-3 / 8) (0) (by norm_num) (by norm_num)
      (by norm_num) (by norm_num)
      (isDouble_dyadic ((-7 / 16)) (-7) 4 (by norm_num) (by norm_num) (by norm_num))
      (isDouble_dyadic ((-3 / 8)) (-3) 3 (by norm_num) (by norm_num) (by norm_num))
      (isDouble_dyadic ((-7 / 16) / 1) (-7) 4 (by norm_num) (by norm_num) (by norm_num))
      (isDouble_dyadic ((-3 / 8) / 1) (-3) 3 (by norm_num) (by norm_num) (by norm_num))
      (isDouble_dyadic ((-7 / 16) / 1 - 1 / 2) (-15) 4 (by norm_num) (by norm_num) (by norm_num))
      (isDouble_dyadic ((-3 / 8) / 1 - 1 / 2) (-7) 3 (by norm_num) (by norm_num) (by norm_num))
      (by norm_num) (by decide) (by norm_num) (by norm_num) (by norm_num))]
  rfl

theorem truncate_abs (y : ℚ) : ((truncate y : Int) : ℚ) ≤ |y| ∧ -|y| ≤ ((truncate y : Int) : ℚ) := by
  rcases le_or_lt 0 y with h | h
  · rw [truncate_of_nonneg h, abs_of_nonneg h]
    have h1 : ((⌊y⌋ : Int) : ℚ) ≤ y := Int.floor_le y
    have h2 : (0 : ℚ) ≤ ((⌊y⌋ : Int) : ℚ) := by exact_mod_cast Int.floor_nonneg.mpr h
    constructor <;> linarith
  · rw [truncate_of_neg h, abs_of_neg h]
    have h1 : y ≤ ((⌈y⌉ : Int) : ℚ) := Int.le_ceil y
    have h2 : ((⌈y⌉ : Int) : ℚ) ≤ 0 := by exact_mod_cast Int.ceil_le.mpr (by simpa using h.le)
    constructor <;> linarith

theorem truncate_int_range (y : ℚ) (h : |y| < 2147483648) :
    INT_MIN ≤ truncate y ∧ truncate y ≤ INT_MAX := by
  obtain ⟨h1, h2⟩ := truncate_abs y
  have h3 : ((truncate y : Int) : ℚ) < ((2147483648 : Int) : ℚ) := by
    push_cast
    linarith
  have h4 : ((-2147483648 : Int) : ℚ) < ((truncate y : Int) : ℚ) := by
    push_cast
    linarith
  have h5 : truncate y < 2147483648 := by exact_mod_cast h3
  have h6 : -2147483648 < truncate y := by exact_mod_cast h4
  unfold INT_MIN INT_MAX
  omega

theorem rawVertex_of_exact (v lower spacing : ℚ) (h : ExactRaw v lower spacing) :
    rawVertex v lower spacing = truncate (exactRaw v lower spacing) := by
  obtain ⟨h1, h2⟩ := h
  obtain ⟨h3, h4⟩ := truncate_int_range _ h2
  unfold rawVertex
  rw [h1, castInt_some h3 h4]

theorem exactRaw_of_doubles (v lower spacing : ℚ) (hs : spacing ≠ 0)
    (h1 : IsDouble (v - lower)) (h2 : IsDouble ((v - lower) / spacing))
    (h3 : IsDouble (exactRaw v lower spacing)) (h4 : |exactRaw v lower spacing| < 2147483648) :
    ExactRaw v lower spacing :=
  ⟨rawDouble_exact v lower spacing hs h1 h2 h3, h4⟩

/-- On an axis whose upper bound lies below its lower bound the spacing is
negative and a shift by the axis range changes the index even away from ties:
`0.25` has index 0 and `0.25 + 1 * (-10 - 0)` has index 9. -/
theorem reversedScenario_shift :
    GetIndices reversedScenario [1 / 4] = Except.ok [0] ∧
      GetIndices reversedScenario [1 / 4 + ((1 : Int) : ℚ) * (-10 - 0)] = Except.ok [9] := by
  have h1 : rawVertex (1 / 4) 0 (-1) = 0 := by
    rw [rawVertex_of_exact _ _ _ (exactRaw_of_doubles (1 / 4) 0 (-1) (by norm_num)
      (isDouble_dyadic (1 / 4 - 0) (1) 2 (by norm_num) (by norm_num) (by norm_num))
      (isDouble_dyadic ((1 / 4 - 0) / (-1)) (-1) 2 (by norm_num) (by norm_num) (by norm_num))
      (isDouble_dyadic (exactRaw (1 / 4) 0 (-1)) (1) 2 (by norm_num) (by norm_num) (by norm_num [exactRaw])) (by norm_num [exactRaw, abs_lt]))]
    have e : exactRaw (1 / 4) 0 (-1) = 1 / 4 := by norm_num [exactRaw]
    rw [e, truncate_of_nonneg (by norm_num)]
    exact Int.floor_eq_iff.mpr ⟨by norm_num, by norm_num⟩
  have h2 : rawVertex (-39 / 4) 0 (-1) = 9 := by
    rw [rawVertex_of_exact _ _ _ (exactRaw_of_doubles (-39 / 4) 0 (-1) (by norm_num)
      (isDouble_dyadic (-39 / 4 - 0) (-39) 2 (by norm_num) (by norm_num) (by norm_num))
      (isDouble_dyadic ((-39 / 4 - 0) / (-1)) (39) 2 (by norm_num) (by norm_num) (by norm_num))
      (isDouble_dyadic (exactRaw (-39 / 4) 0 (-1)) (37) 2 (by norm_num) (by norm_num) (by norm_num [exactRaw])) (by norm_num [exactRaw, abs_lt]))]
    have e : exactRaw (-39 / 4) 0 (-1) = 37 / 4 := by norm_num [exactRaw]
    rw [e, truncate_of_nonneg (by norm_num)]
    exact Int.floor_eq_iff.mpr ⟨by norm_num, by norm_num⟩
  have e : (1 / 4 + ((1 : Int) : ℚ) * (-10 - 0) : ℚ) = -39 / 4 := by norm_num
  constructor
  · rw [GetIndices_one_periodic_axis reversedScenario 0 (-1) 10 (1 / 4) 0 rfl rfl rfl rfl
      (by norm_num) (by norm_num) (by decide) h1]
    rfl
  · rw [e, GetIndices_one_periodic_axis reversedScenario 0 (-1) 10 (-39 / 4) 9 rfl rfl rfl rfl
      (by norm_num) (by norm_num) (by decide) h2]
    rfl

/-- Beyond the `int` range a shift by a multiple of the axis range changes the
index as well: on the periodic scenario grid `0` has index 0 and
`0 + 10^9 * (10 - 0)` has index 2, the conversion of `1e10 + 0.5` giving
`INT_MIN`. -/
theorem periodicScenario_far_shift :
    GetIndices periodicScenario [0] = Except.ok [0] ∧
      GetIndices periodicScenario [0 + ((1000000000 : Int) : ℚ) * (10 - 0)] = Except.ok [2] := by
  have h1 : rawVertex 0 0 1 = 0 := by
    rw [rawVertex_of_exact _ _ _ (exactRaw_of_doubles 0 0 1 (by norm_num)
      (isDouble_dyadic (0 - 0) (0) 0 (by norm_num) (by norm_num) (by norm_num))
      (isDouble_dyadic ((0 - 0) / 1) (0) 0 (by norm_num) (by norm_num) (by norm_num))
      (isDouble_dyadic (exactRaw 0 0 1) (1) 1 (by norm_num) (by norm_num)
        (by norm_num [exactRaw])) (by norm_num [exactRaw, abs_lt]))]
    have e : exactRaw 0 0 1 = 1 / 2 := by norm_num [exactRaw]
    rw [e, truncate_of_nonneg (by norm_num)]
    exact Int.floor_eq_iff.mpr ⟨by norm_num, by norm_num⟩
  have h2 : rawVertex 10000000000 0 1 = INT_MIN := by
    have hraw : rawDouble 10000000000 0 1 = some (exactRaw 10000000000 0 1) :=
      rawDouble_exact _ _ _ (by norm_num)
        (isDouble_dyadic (10000000000 - 0) (10000000000) 0 (by norm_num) (by norm_num)
          (by norm_num))
        (isDouble_dyadic ((10000000000 - 0) / 1) (10000000000) 0 (by norm_num) (by norm_num)
          (by norm_num))
        (isDouble_dyadic (exactRaw 10000000000 0 1) (20000000001) 1 (by norm_num)
          (by norm_num) (by norm_num [exactRaw]))
    have e : exactRaw 10000000000 0 1 = 20000000001 / 2 := by norm_num [exactRaw]
    unfold rawVertex
    rw [hraw, e]
    apply castInt_overflow
    rw [truncate_of_nonneg (by norm_num)]
    have hf : ⌊(20000000001 / 2 : ℚ)⌋ = 10000000000 :=
      Int.floor_eq_iff.mpr ⟨by norm_num, by norm_num⟩
    rw [hf]
    decide
  have e : (0 + ((1000000000 : Int) : ℚ) * (10 - 0) : ℚ) = 10000000000 := by norm_num
  constructor
  · rw [periodicScenario_eval 0 0 h1]
    rfl
  · rw [e, periodicScenario_eval 10000000000 INT_MIN h2]
    rfl

/-! ### Claims about GetIndices -/

/-- C9, as the code has it. On the 1-axis periodic grid with bounds `[0, 10]`,
10 points and spacing 1, `GetIndices([10.4])` returns index 0 and
`GetIndices([-0.4])` returns index 0 as well: `int(-0.4 - 0.5)` truncates toward
zero and node 0 is the nearest node. -/
theorem GetIndices_periodic_scenario :
    GetIndices periodicScenario [104 / 10] = Except.ok [0] ∧
      GetIndices periodicScenario [-4 / 10] = Except.ok [0] :=
  ⟨periodicScenario_above, periodicScenario_below⟩

/-- C9, as stated, fails: `GetIndices([-0.4])` does not return index 9. -/
theorem GetIndices_periodic_scenario_not_nine :
    ¬ (GetIndices periodicScenario [104 / 10] = Except.ok [0] ∧
      GetIndices periodicScenario [-4 / 10] = Except.ok [9]) := by
  rintro ⟨-, h⟩
  rw [periodicScenario_below] at h
  simp at h

/-- C10. On the 2-axis non-periodic grid with bounds `[0, 1] × [0, 1]`, 3 points
per axis and spacing 1/2, `GetIndices([0.26, 0.76])` returns `[1, 2]`,
`GetIndices([-5, 0])` returns `[0, 0]` and `GetIndices([0, 0])` returns `[0, 0]`. -/
theorem GetIndices_clamp_scenario :
    GetIndices clampScenario [26 / 100, 76 / 100] = Except.ok [1, 2] ∧
      GetIndices clampScenario [-5, 0] = Except.ok [0, 0] ∧
      GetIndices clampScenario [0, 0] = Except.ok [0, 0] := by
  have hzero : rawVertex 0 0 (1 / 2) = 0 :=
    (rawVertex_above 0 0 (1 / 2) 0 0 (0) (by norm_num) (by norm_num)
        (by norm_num) (by norm_num)
        (isDouble_dyadic (0) (0) 0 (by norm_num) (by norm_num) (by norm_num))
        (isDouble_dyadic (0) (0) 0 (by norm_num) (by norm_num) (by norm_num))
        (isDouble_dyadic (0 / (1 / 2)) (0) 0 (by norm_num) (by norm_num) (by norm_num))
        (isDouble_dyadic (0 / (1 / 2)) (0) 0 (by norm_num) (by norm_num) (by norm_num))
        (isDouble_dyadic (0 / (1 / 2) + 1 / 2) (1) 1 (by norm_num) (by norm_num) (by norm_num))
        (isDouble_dyadic (0 / (1 / 2) + 1 / 2) (1) 1 (by norm_num) (by norm_num) (by norm_num))
        (by norm_num) (by decide) (by norm_num) (by norm_num))
  refine ⟨?_, ?_, ?_⟩
  · rw [clampScenario_eval (26 / 100) (76 / 100) 1 2
      (rawVertex_above (26 / 100) 0 (1 / 2) (1 / 4) (5 / 16) (1) (by norm_num) (by norm_num)
        (by norm_num) (by norm_num)
        (isDouble_dyadic ((1 / 4)) (1) 2 (by norm_num) (by norm_num) (by norm_num))
        (isDouble_dyadic ((5 / 16)) (5) 4 (by norm_num) (by norm_num) (by norm_num))
        (isDouble_dyadic ((1 / 4) / (1 / 2)) (1) 1 (by norm_num) (by norm_num) (by norm_num))
        (isDouble_dyadic ((5 / 16) / (1 / 2)) (5) 3 (by norm_num) (by norm_num) (by norm_num))
        (isDouble_dyadic ((1 / 4) / (1 / 2) + 1 / 2) (1) 0 (by norm_num) (by norm_num) (by norm_num))
        (isDouble_dyadic ((5 / 16) / (1 / 2) + 1 / 2) (9) 3 (by norm_num) (by norm_num) (by norm_num))
        (by norm_num) (by decide) (by norm_num) (by norm_num))
      (rawVertex_above (76 / 100) 0 (1 / 2) (3 / 4) (13 / 16) (2) (by norm_num) (by norm_num)
        (by norm_num) (by norm_num)
        (isDouble_dyadic ((3 / 4)) (3) 2 (by norm_num) (by norm_num) (by norm_num))
        (isDouble_dyadic ((13 / 16)) (13) 4 (by norm_num) (by norm_num) (by norm_num))
        (isDouble_dyadic ((3 / 4) / (1 / 2)) (3) 1 (by norm_num) (by norm_num) (by norm_num))
        (isDouble_dyadic ((13 / 16) / (1 / 2)) (13) 3 (by norm_num) (by norm_num) (by norm_num))
        (isDouble_dyadic ((3 / 4) / (1 / 2) + 1 / 2) (2) 0 (by norm_num) (by norm_num) (by norm_num))
        (isDouble_dyadic ((13 / 16) / (1 / 2) + 1 / 2) (17) 3 (by norm_num) (by norm_num) (by norm_num))
        (by norm_num) (by decide) (by norm_num) (by norm_num))]
    rfl
  · rw [clampScenario_eval (-5) 0 (-10) 0
      (rawVertex_below (-5) 0 (1 / 2) (-5) (-5) (-10) (by norm_num) (by norm_num)
        (by norm_num) (by norm_num)
        (isDouble_dyadic ((-5)) (-5) 0 (by norm_num) (by norm_num) (by norm_num))
        (isDouble_dyadic ((-5)) (-5) 0 (by norm_num) (by norm_num) (by norm_num))
        (isDouble_dyadic ((-5) / (1 / 2)) (-10) 0 (by norm_num) (by norm_num) (by norm_num))
        (isDouble_dyadic ((-5) / (1 / 2)) (-10) 0 (by norm_num) (by norm_num) (by norm_num))
        (isDouble_dyadic ((-5) / (1 / 2) - 1 / 2) (-21) 1 (by norm_num) (by norm_num) (by norm_num))
        (isDouble_dyadic ((-5) / (1 / 2) - 1 / 2) (-21) 1 (by norm_num) (by norm_num) (by norm_num))
        (by norm_num) (by decide) (by norm_num) (by norm_num) (by norm_num))
      hzero]
    rfl
  · rw [clampScenario_eval 0 0 0 0 hzero hzero]
    rfl

/-! ### Claims about rounding, nearest nodes and clamping -/

theorem chain_below {v lower spacing y : ℚ}
    (h : dsub (ddiv (dsub (some v) (some lower)) (some spacing)) (some (1 / 2)) = some y) :
    ∃ d q, fl (v - lower) = some d ∧ fl (d / spacing) = some q ∧ fl (q - 1 / 2) = some y := by
  simp only [dsub, ddiv, Option.bind] at h
  cases hd : fl (v - lower) with
  | none => simp [hd] at h
  | some d =>
    simp only [hd] at h
    by_cases hs : spacing = 0
    · simp [hs] at h
    · simp only [hs, if_false] at h
      cases hq : fl (d / spacing) with
      | none => simp [hq] at h
      | some q =>
        simp only [hq] at h
        exact ⟨d, q, rfl, hq, h⟩

theorem chain_above {v lower spacing y : ℚ}
    (h : dadd (ddiv (dsub (some v) (some lower)) (some spacing)) (some (1 / 2)) = some y) :
    ∃ d q, fl (v - lower) = some d ∧ fl (d / spacing) = some q ∧ fl (q + 1 / 2) = some y := by
  simp only [dadd, dsub, ddiv, Option.bind] at h
  cases hd : fl (v - lower) with
  | none => simp [hd] at h
  | some d =>
    simp only [hd] at h
    by_cases hs : spacing = 0
    · simp [hs] at h
    · simp only [hs, if_false] at h
      cases hq : fl (d / spacing) with
      | none => simp [hq] at h
      | some q =>
        simp only [hq] at h
        exact ⟨d, q, rfl, hq, h⟩

/-- C11, as the code has it. On an axis with positive spacing the raw index that
`GetIndices` wraps and clamps is obtained from the double `y` that the program
computes for `(value - lower) / spacing - 0.5` (value below the lower bound) or
`(value - lower) / spacing + 0.5` (value at or above it): it is `ceil(y)` below
the lower bound and `floor(y)` at or above it, provided that integer is an
`int`. -/
theorem GetIndices_raw_vertex (v lower spacing : ℚ) (hs : 0 < spacing) :
    ∃ raw : Int,
      (∀ n, 1 ≤ n → GetIndices.vertex v lower spacing false n
        = Except.ok (if raw < 0 then 0 else if raw ≥ n then n - 1 else raw)) ∧
      (∀ n, 1 ≤ n → n ≤ INT_MAX →
        GetIndices.vertex v lower spacing true n = Except.ok (raw % n)) ∧
      (v < lower → ∀ y,
        dsub (ddiv (dsub (some v) (some lower)) (some spacing)) (some (1 / 2)) = some y →
        INT_MIN ≤ ⌈y⌉ → raw = ⌈y⌉) ∧
      (lower ≤ v → ∀ y,
        dadd (ddiv (dsub (some v) (some lower)) (some spacing)) (some (1 / 2)) = some y →
        ⌊y⌋ ≤ INT_MAX → raw = ⌊y⌋) := by
  refine ⟨rawVertex v lower spacing,
    fun n hn => GetIndices.vertex_nonperiodic v lower spacing n hs.ne' hn,
    fun n hn hmax => GetIndices.vertex_periodic v lower spacing n hs.ne' (by omega) hmax, ?_, ?_⟩
  · intro hv y hy hmin
    obtain ⟨d, q, hd, hq, hy1⟩ := chain_below hy
    have hd0 : d ≤ 0 := fl_nonpos hd (by linarith)
    have hq0 : q ≤ 0 := fl_nonpos hq (div_nonpos_of_nonpos_of_nonneg hd0 hs.le)
    have hy0 : y ≤ -(1 / 2) := fl_le_neg_half hy1 (by linarith)
    have hyneg : y < 0 := by linarith
    have hc : ⌈y⌉ ≤ 0 := Int.ceil_le.mpr (by simpa using hyneg.le)
    unfold rawVertex rawDouble
    rw [if_pos hv, hy, castInt_some (by rw [truncate_of_neg hyneg]; exact hmin)
      (by rw [truncate_of_neg hyneg]; unfold INT_MAX; omega), truncate_of_neg hyneg]
  · intro hv y hy hmax
    obtain ⟨d, q, hd, hq, hy1⟩ := chain_above hy
    have hd0 : 0 ≤ d := fl_nonneg hd (by linarith)
    have hq0 : 0 ≤ q := fl_nonneg hq (div_nonneg hd0 hs.le)
    have hy0 : 1 / 2 ≤ y := fl_ge_half hy1 (by linarith)
    have hypos : 0 ≤ y := by linarith
    have hf : 0 ≤ ⌊y⌋ := Int.floor_nonneg.mpr hypos
    unfold rawVertex rawDouble
    rw [if_neg (not_lt.mpr hv), hy, castInt_some
      (by rw [truncate_of_nonneg hypos]; unfold INT_MIN; omega)
      (by rw [truncate_of_nonneg hypos]; exact hmax), truncate_of_nonneg hypos]

theorem GetIndices_raw_vertex_witness :
    ∃ raw : Int,
      (∀ n, 1 ≤ n → GetIndices.vertex (-4 / 10) 0 1 false n
        = Except.ok (if raw < 0 then 0 else if raw ≥ n then n - 1 else raw)) ∧
      (∀ n, 1 ≤ n → n ≤ INT_MAX →
        GetIndices.vertex (-4 / 10) 0 1 true n = Except.ok (raw % n)) ∧
      ((-4 / 10 : ℚ) < 0 → ∀ y,
        dsub (ddiv (dsub (some (-4 / 10)) (some 0)) (some 1)) (some (1 / 2)) = some y →
        INT_MIN ≤ ⌈y⌉ → raw = ⌈y⌉) ∧
      ((0 : ℚ) ≤ -4 / 10 → ∀ y,
        dadd (ddiv (dsub (some (-4 / 10)) (some 0)) (some 1)) (some (1 / 2)) = some y →
        ⌊y⌋ ≤ INT_MAX → raw = ⌊y⌋) :=
  GetIndices_raw_vertex (-4 / 10) 0 1 (by norm_num)

/-- C11, as stated, fails below the lower bound: for the value `-0.4` on an axis
with lower bound 0 and spacing 1 the raw index is `int(-0.9) = 0`, while
`floor(x - 0.5) = floor(-0.9) = -1`. -/
theorem GetIndices_raw_vertex_not_floor :
    rawVertex (-4 / 10) 0 1 = 0 ∧ ⌊((-4 / 10 : ℚ) - 0) / 1 - 1 / 2⌋ = -1 ∧
      rawVertex (-4 / 10) 0 1 ≠ ⌊((-4 / 10 : ℚ) - 0) / 1 - 1 / 2⌋ := by
  have h1 : rawVertex (-4 / 10) 0 1 = 0 :=
    (rawVertex_below (-4 / 10) 0 1 (-7 / 16) (-3 / 8) (0) (by norm_num) (by norm_num)
      (by norm_num) (by norm_num)
      (isDouble_dyadic ((-7 / 16)) (-7) 4 (by norm_num) (by norm_num) (by norm_num))
      (isDouble_dyadic ((-3 / 8)) (-3) 3 (by norm_num) (by norm_num) (by norm_num))
      (isDouble_dyadic ((-7 / 16) / 1) (-7) 4 (by norm_num) (by norm_num) (by norm_num))
      (isDouble_dyadic ((-3 / 8) / 1) (-3) 3 (by norm_num) (by norm_num) (by norm_num))
      (isDouble_dyadic ((-7 / 16) / 1 - 1 / 2) (-15) 4 (by norm_num) (by norm_num) (by norm_num))
      (isDouble_dyadic ((-3 / 8) / 1 - 1 / 2) (-7) 3 (by norm_num) (by norm_num) (by norm_num))
      (by norm_num) (by decide) (by norm_num) (by norm_num) (by norm_num))
  have h2 : ⌊((-4 / 10 : ℚ) - 0) / 1 - 1 / 2⌋ = -1 :=
    Int.floor_eq_iff.mpr ⟨by norm_num, by norm_num⟩
  refine ⟨h1, h2, ?_⟩
  rw [h1, h2]
  decide

/-! ### Rounding to a farther node, and values beyond the `int` range -/

theorem ulpExponent_eq (x : ℚ) (e : Int) (h1 : (2 : ℚ) ^ e ≤ |x|) (h2 : |x| < 2 ^ (e + 1))
    (he : -1022 ≤ e) : ulpExponent x = e - 52 := by
  have hx : 0 < |x| := lt_of_lt_of_le (zpow_pos (by norm_num) e) h1
  have hl1 : e ≤ Int.log 2 |x| :=
    (Int.zpow_le_iff_le_log (R := ℚ) (b := 2) (by norm_num) hx).mp (by simpa using h1)
  have hl2 : Int.log 2 |x| < e + 1 :=
    (Int.lt_zpow_iff_log_lt (R := ℚ) (b := 2) (by norm_num) hx).mp (by simpa using h2)
  unfold ulpExponent
  rw [max_eq_left (by omega)]
  omega

/-- The sum `0.49999999999999994 + 0.5` is half-way between the doubles
`1 - 2^-53` and `1` and rounds to the even one: `1`. -/
theorem fl_below_one : fl (18014398509481983 / 18014398509481984) = some 1 := by
  have hu : ulpExponent (18014398509481983 / 18014398509481984) = -53 := by
    rw [ulpExponent_eq _ (-1) (by rw [abs_of_pos (by norm_num)]; norm_num)
      (by rw [abs_of_pos (by norm_num)]; norm_num) (by norm_num)]
    norm_num
  have hq : (18014398509481983 / 18014398509481984 : ℚ) / 2 ^ (-53 : Int)
      = 18014398509481983 / 2 := by
    rw [zpow_neg]
    norm_num
  have hf : ⌊(18014398509481983 / 2 : ℚ)⌋ = 9007199254740991 :=
    Int.floor_eq_iff.mpr ⟨by norm_num, by norm_num⟩
  have hr : roundHalfEven (18014398509481983 / 2) = 9007199254740992 := by
    unfold roundHalfEven
    rw [hf]
    norm_num
  have hd : roundDouble (18014398509481983 / 18014398509481984) = 1 := by
    unfold roundDouble
    rw [hu, hq, hr, zpow_neg]
    norm_num
  unfold fl
  rw [hd]
  norm_num

theorem rawVertex_half_ulp_below :
    rawVertex (9007199254740991 / 18014398509481984) 0 1 = 1 := by
  have hd : fl (9007199254740991 / 18014398509481984 - 0)
      = some (9007199254740991 / 18014398509481984) := by
    have e : (9007199254740991 / 18014398509481984 - 0 : ℚ)
        = 9007199254740991 / 18014398509481984 := by norm_num
    rw [e]
    exact fl_exact _ (isDouble_dyadic (9007199254740991 / 18014398509481984) (9007199254740991) 54 (by norm_num) (by norm_num) (by norm_num))
  have hq : fl (9007199254740991 / 18014398509481984 / 1)
      = some (9007199254740991 / 18014398509481984) := by
    have e : (9007199254740991 / 18014398509481984 / 1 : ℚ)
        = 9007199254740991 / 18014398509481984 := by norm_num
    rw [e]
    exact fl_exact _ (isDouble_dyadic (9007199254740991 / 18014398509481984) (9007199254740991) 54 (by norm_num) (by norm_num) (by norm_num))
  have hy : fl (9007199254740991 / 18014398509481984 + 1 / 2) = some 1 := by
    have e : (9007199254740991 / 18014398509481984 + 1 / 2 : ℚ)
        = 18014398509481983 / 18014398509481984 := by norm_num
    rw [e]
    exact fl_below_one
  have hraw : rawDouble (9007199254740991 / 18014398509481984) 0 1 = some 1 := by
    unfold rawDouble
    rw [if_neg (by norm_num)]
    simp only [dsub, ddiv, dadd, Option.bind, hd, hq, hy, one_ne_zero, if_false]
  unfold rawVertex
  rw [hraw]
  exact castInt_of_floor (by norm_num) (by decide) (by norm_num) (by norm_num)

/-- C12. The value `0.49999999999999994` lies on the grid with nodes 0 and 1
(lower bound 0, spacing 1, 2 points, non-periodic) and is nearer to node 0, but
`GetIndices` returns node 1, which is farther away than half the spacing: the
double sum `0.49999999999999994 + 0.5` rounds to `1`. -/
theorem GetIndices_not_nearest :
    (0 : ℚ) ≤ 9007199254740991 / 18014398509481984 ∧
      (9007199254740991 / 18014398509481984 : ℚ) ≤ 0 + (((2 : Int) : ℚ) - 1) * 1 ∧
      GetIndices unitScenario [9007199254740991 / 18014398509481984] = Except.ok [1] ∧
      (1 : ℚ) / 2 < |9007199254740991 / 18014398509481984 - (0 + ((1 : Int) : ℚ) * 1)| ∧
      |(9007199254740991 / 18014398509481984 : ℚ) - (0 + ((0 : Int) : ℚ) * 1)| < 1 / 2 := by
  refine ⟨by norm_num, by norm_num, ?_, ?_, ?_⟩
  · rw [GetIndices_one_clamped_axis unitScenario 0 1 2 _ 1 rfl rfl rfl rfl (by norm_num)
      (by norm_num)
      rawVertex_half_ulp_below]
    rfl
  · rw [lt_abs]
    right
    norm_num
  · rw [abs_lt]
    constructor <;> norm_num

theorem rawVertex_far_above : rawVertex 10000000000 0 (1 / 2) = INT_MIN := by
  have hraw : rawDouble 10000000000 0 (1 / 2) = some (exactRaw 10000000000 0 (1 / 2)) :=
    rawDouble_exact _ _ _ (by norm_num)
      (isDouble_dyadic (10000000000 - 0) (10000000000) 0 (by norm_num) (by norm_num) (by norm_num))
      (isDouble_dyadic ((10000000000 - 0) / (1 / 2)) (20000000000) 0 (by norm_num) (by norm_num) (by norm_num))
      (isDouble_dyadic (exactRaw 10000000000 0 (1 / 2)) (40000000001) 1 (by norm_num) (by norm_num) (by norm_num [exactRaw]))
  have e : exactRaw 10000000000 0 (1 / 2) = 40000000001 / 2 := by norm_num [exactRaw]
  unfold rawVertex
  rw [hraw, e]
  apply castInt_overflow
  rw [truncate_of_nonneg (by norm_num)]
  have hf : ⌊(40000000001 / 2 : ℚ)⌋ = 20000000000 :=
    Int.floor_eq_iff.mpr ⟨by norm_num, by norm_num⟩
  rw [hf]
  decide

/-- C13. On the non-periodic grid with lower bound 0, 3 points and spacing 1/2
the value `1e10` lies above the last node `0 + (3 - 1) * 0.5`, but `GetIndices`
returns index 0 for it, not `3 - 1`: the double `2e10 + 0.5` is outside the
`int` range, its conversion gives `INT_MIN`, and the clamp maps that to 0. -/
theorem GetIndices_far_above :
    (0 : ℚ) + (((3 : Int) : ℚ) - 1) * (1 / 2) < 10000000000 ∧
      GetIndices clampScenario [10000000000, 0] = Except.ok [0, 0] ∧
      (0 : Int) ≠ 3 - 1 := by
  refine ⟨by norm_num, ?_, by decide⟩
  rw [clampScenario_eval 10000000000 0 INT_MIN 0 rawVertex_far_above
    (rawVertex_above 0 0 (1 / 2) 0 0 (0) (by norm_num) (by norm_num)
      (by norm_num) (by norm_num)
      (isDouble_dyadic (0) (0) 0 (by norm_num) (by norm_num) (by norm_num))
      (isDouble_dyadic (0) (0) 0 (by norm_num) (by norm_num) (by norm_num))
      (isDouble_dyadic (0 / (1 / 2)) (0) 0 (by norm_num) (by norm_num) (by norm_num))
      (isDouble_dyadic (0 / (1 / 2)) (0) 0 (by norm_num) (by norm_num) (by norm_num))
      (isDouble_dyadic (0 / (1 / 2) + 1 / 2) (1) 1 (by norm_num) (by norm_num) (by norm_num))
      (isDouble_dyadic (0 / (1 / 2) + 1 / 2) (1) 1 (by norm_num) (by norm_num) (by norm_num))
      (by norm_num) (by decide) (by norm_num) (by norm_num))]
  rfl

/-! ## Walker topology -/

theorem toUnsigned_of_nonneg (x : Int) (h0 : 0 ≤ x) (h1 : x < 2 ^ 31) : toUnsigned x = x := by
  unfold toUnsigned
  exact Int.emod_eq_of_lt h0 (by omega)

theorem tdiv_bounds (a b : Int) (ha : 0 ≤ a) (hb : 0 < b) :
    a.tdiv b = a / b ∧ 0 ≤ a / b ∧ a / b ≤ a := by
  refine ⟨Int.tdiv_eq_ediv ha hb.le, Int.ediv_nonneg ha hb.le, ?_⟩
  exact Int.ediv_le_self b ha

/-- C15. For a global communicator with rank `r` and size `S` and a per-walker
communicator of size `s > 0` and rank `q`, `GetWalkerID` returns the integer
quotient `r / s`, `GetNumWalkers` returns the integer quotient `S / s`, and
`IsMasterRank` returns true exactly when `q = 0`. -/
theorem EventListener.walker_topology (world comm : Comm) (hworld : world.Valid)
    (hs : 0 < comm.size) :
    EventListener.GetWalkerID world comm = Except.ok (world.rank / comm.size) ∧
      EventListener.GetNumWalkers world comm = Except.ok (world.size / comm.size) ∧
      (EventListener.IsMasterRank comm = true ↔ comm.rank = 0) := by
  obtain ⟨h0, h1, h2⟩ := hworld
  obtain ⟨e1, n1, l1⟩ := tdiv_bounds world.rank comm.size h0 hs
  obtain ⟨e2, n2, l2⟩ := tdiv_bounds world.size comm.size (by omega) hs
  refine ⟨?_, ?_, ?_⟩
  · unfold EventListener.GetWalkerID
    rw [if_neg (by omega), e1, toUnsigned_of_nonneg _ n1 (by omega)]
    rfl
  · unfold EventListener.GetNumWalkers
    rw [if_neg (by omega), e2, toUnsigned_of_nonneg _ n2 (by omega)]
    rfl
  · simp [EventListener.IsMasterRank]

theorem EventListener.walker_topology_witness :
    Comm.Valid ⟨5, 8⟩ ∧
      EventListener.GetWalkerID ⟨5, 8⟩ ⟨1, 2⟩ = Except.ok ((5 : Int) / 2) ∧
      EventListener.GetNumWalkers ⟨5, 8⟩ ⟨1, 2⟩ = Except.ok ((8 : Int) / 2) ∧
      (EventListener.IsMasterRank ⟨1, 2⟩ = true ↔ (1 : Int) = 0) :=
  ⟨by norm_num [Comm.Valid],
    EventListener.walker_topology ⟨5, 8⟩ ⟨1, 2⟩ (by norm_num [Comm.Valid]) (by norm_num)⟩

/-- C18. For a global communicator with `0 ≤ rank < size` and a sub-communicator
size `s > 0` that divides the global size, the walker ID returned by
`GetWalkerID` is strictly less than the walker count returned by
`GetNumWalkers`. -/
theorem EventListener.GetWalkerID_lt_GetNumWalkers (world comm : Comm) (hworld : world.Valid)
    (hs : 0 < comm.size) (hdvd : comm.size ∣ world.size) :
    ∃ id count, EventListener.GetWalkerID world comm = Except.ok id ∧
      EventListener.GetNumWalkers world comm = Except.ok count ∧ id < count := by
  obtain ⟨h0, h1, h2⟩ := hworld
  obtain ⟨e1, n1, l1⟩ := tdiv_bounds world.rank comm.size h0 hs
  obtain ⟨e2, n2, l2⟩ := tdiv_bounds world.size comm.size (by omega) hs
  refine ⟨world.rank / comm.size, world.size / comm.size, ?_, ?_, ?_⟩
  · unfold EventListener.GetWalkerID
    rw [if_neg (by omega), e1, toUnsigned_of_nonneg _ n1 (by omega)]
    rfl
  · unfold EventListener.GetNumWalkers
    rw [if_neg (by omega), e2, toUnsigned_of_nonneg _ n2 (by omega)]
    rfl
  · apply Int.ediv_lt_of_lt_mul hs
    rw [Int.ediv_mul_cancel hdvd]
    exact h1

theorem EventListener.GetWalkerID_lt_GetNumWalkers_witness :
    Comm.Valid ⟨5, 8⟩ ∧ (2 : Int) ∣ 8 ∧
      ∃ id count, EventListener.GetWalkerID ⟨5, 8⟩ ⟨1, 2⟩ = Except.ok id ∧
        EventListener.GetNumWalkers ⟨5, 8⟩ ⟨1, 2⟩ = Except.ok count ∧ id < count :=
  ⟨by norm_num [Comm.Valid], by norm_num,
    EventListener.GetWalkerID_lt_GetNumWalkers ⟨5, 8⟩ ⟨1, 2⟩ (by norm_num [Comm.Valid])
      (by norm_num) (by norm_num)⟩

/-! ## Species lookup -/

theorem std_find_le (xs : List String) (x : String) : std_find xs x ≤ xs.length := by
  induction xs with
  | nil => simp [std_find]
  | cons y ys ih =>
    unfold std_find
    split_ifs
    · omega
    · simp only [List.length_cons]
      omega

theorem std_find_eq_length_iff (xs : List String) (x : String) :
    std_find xs x = xs.length ↔ x ∉ xs := by
  induction xs with
  | nil => simp [std_find]
  | cons y ys ih =>
    unfold std_find
    by_cases h : y = x
    · simp [h]
    · have hne : ¬ x = y := fun e => h e.symm
      simp [h, hne, ih]

theorem std_find_first (xs : List String) (x : String) (h : x ∈ xs) :
    xs[std_find xs x]? = some x ∧ ∀ j, j < std_find xs x → xs[j]? ≠ some x := by
  induction xs with
  | nil => simp at h
  | cons y ys ih =>
    unfold std_find
    by_cases hy : y = x
    · simp [hy]
    · have hmem : x ∈ ys := by
        rcases List.mem_cons.mp h with e | e
        · exact absurd e.symm hy
        · exact e
      obtain ⟨h1, h2⟩ := ih hmem
      rw [if_neg hy]
      refine ⟨by simpa using h1, ?_⟩
      intro j hj
      cases j with
      | zero => simpa using hy
      | succ j =>
        simp only [List.getElem?_cons_succ]
        exact h2 j (by omega)

/-- C19. `GetSpeciesIndex` returns -1 exactly when the name does not occur in
the species table; otherwise it returns the smallest index at which the table
entry equals the name, and that index is below the table length. -/
theorem QboxHook.GetSpeciesIndex_spec (species_ : List String) (species : String) :
    (QboxHook.GetSpeciesIndex species_ species = -1 ↔ species ∉ species_) ∧
      (species ∈ species_ → ∃ i : Nat, QboxHook.GetSpeciesIndex species_ species = (i : Int) ∧
        i < species_.length ∧ species_[i]? = some species ∧
        ∀ j, j < i → species_[j]? ≠ some species) := by
  have hle := std_find_le species_ species
  have hiff := std_find_eq_length_iff species_ species
  constructor
  · unfold QboxHook.GetSpeciesIndex
    constructor
    · intro h
      by_contra hmem
      have hne : std_find species_ species ≠ species_.length := fun e => hiff.mp e hmem
      simp only [hne, if_false] at h
      omega
    · intro h
      simp [hiff.mpr h]
  · intro hmem
    have hne : std_find species_ species ≠ species_.length := fun e => hiff.mp e hmem
    obtain ⟨h1, h2⟩ := std_find_first species_ species hmem
    refine ⟨std_find species_ species, ?_, by omega, h1, h2⟩
    unfold QboxHook.GetSpeciesIndex
    simp [hne]

end SSAGES
